import Mathlib

/-!
Shallow embedding of the auto-processing / caching pipeline of the
productivity app (TypeScript sources under `src/main/services/`), together
with proofs of the specification claims about it.

Conventions of the embedding:
* the SQLite database (`database.ts`) is a record of lists, one per table;
  a SQL `INSERT` appends, `ON CONFLICT DO UPDATE` updates in place;
* external collaborators (the language model, the Linkup search tool
  absorbed into it, Gmail send, Calendar create, providers) are oracles
  passed in as function-valued environment fields; a model invocation that
  throws is the oracle returning `none`;
* `async` functions become pure state-passing functions; a thrown JS error
  becomes `Except.error`; observable side effects on collaborators are
  returned as invocation logs / counters.
-/

namespace Pipeline

/-! ## Data model (`mock-data.ts`, `research-agent.ts`, `insights-agent.ts`) -/

/-- TS `EmailMessage` (mock-data.ts). TS fields `from`/`to` are Lean
keywords, rendered `fromAddr`/`toAddr` (the SQL columns are `from_addr`,
`to_addr`). -/
structure EmailMessage where
  id : String
  fromAddr : String
  toAddr : String
  subject : String
  snippet : String
  body : String
  date : String
  deriving DecidableEq, Repr

/-- An attendee of a calendar event (`{name, email, company?}`). -/
structure Attendee where
  name : String
  email : String
  company : Option String
  deriving DecidableEq, Repr

/-- TS `CalendarEvent` (mock-data.ts). TS field `end` is a Lean keyword,
rendered `endTime` (SQL column `end_time`). -/
structure CalendarEvent where
  id : String
  summary : String
  description : String
  start : String
  endTime : String
  attendees : List Attendee
  location : Option String
  deriving DecidableEq, Repr

/-- TS `InputType = 'email' | 'calendar'`. -/
inductive SourceType where
  | email
  | calendar
  deriving DecidableEq, Repr

/-- The `data` payload of a research input / unprocessed item. -/
inductive ItemData where
  | email (m : EmailMessage)
  | calendar (e : CalendarEvent)
  deriving DecidableEq, Repr

/-- TS `ResearchInput` (mock-data.ts). -/
structure ResearchInput where
  type : SourceType
  data : ItemData
  deriving DecidableEq, Repr

/-- One entry of the research agent's tool-call log. -/
structure ToolCall where
  tool : String
  query : String
  deriving DecidableEq, Repr

/-- TS `AgentResult` (research-agent.ts). -/
structure AgentResult where
  output : String
  toolCalls : List ToolCall
  deriving DecidableEq, Repr

/-- TS `InsightsInputType = 'email-reply' | 'transcript'`
(insights-mock-data.ts). -/
inductive InsightsSourceType where
  | emailReply
  | transcript
  deriving DecidableEq, Repr

/-- The tag of an `ActionStep`: `'email' | 'meeting'`. -/
inductive ActionType where
  | email
  | meeting
  deriving DecidableEq, Repr

/-- TS `ActionStep` (insights-agent.ts). Optional TS fields become
`Option`; a JS `undefined` is `none`. TS field `to` is a Lean keyword,
rendered `toAddr`. -/
structure ActionStep where
  type : ActionType
  description : String
  details : String
  toAddr : Option String
  subject : Option String
  body : Option String
  meetingSummary : Option String
  attendees : Option (List String)
  durationMinutes : Option Int
  deriving DecidableEq, Repr

/-- TS `InsightsResult` (insights-agent.ts). -/
structure InsightsResult where
  keyInsights : List String
  feedback : List String
  actionSteps : List ActionStep
  rawOutput : String
  deriving DecidableEq, Repr

/-! ## The store (`database.ts`)

Each SQL table is a list of rows; primary-key/unique upserts update the
matching row in place and inserts append. -/

/-- A row of the `emails` table: the message columns plus `processed`
(INTEGER DEFAULT 0). -/
structure EmailRow where
  msg : EmailMessage
  processed : Bool
  deriving DecidableEq, Repr

/-- A row of the `events` table. -/
structure EventRow where
  ev : CalendarEvent
  processed : Bool
  deriving DecidableEq, Repr

/-- A row of `research_results` (UNIQUE(source_type, source_id)). -/
structure ResearchRow where
  sourceType : SourceType
  sourceId : String
  result : AgentResult
  deriving DecidableEq, Repr

/-- A row of `insights_results` (UNIQUE(source_type, source_id)). -/
structure InsightsRow where
  sourceType : InsightsSourceType
  sourceId : String
  result : InsightsResult
  deriving DecidableEq, Repr

/-- A row of `insights_action_log` (append-only). -/
structure ActionLogEntry where
  sourceType : InsightsSourceType
  sourceId : String
  actionIndex : Nat
  status : String
  deriving DecidableEq, Repr

/-- The whole SQLite database. -/
structure DB where
  emails : List EmailRow
  events : List EventRow
  research : List ResearchRow
  insights : List InsightsRow
  actionLog : List ActionLogEntry
  deriving DecidableEq, Repr

/-- The empty database, as created by `initDatabase`. -/
def DB.empty : DB := ⟨[], [], [], [], []⟩

/-- One `INSERT ... ON CONFLICT(id) DO UPDATE` of the prepared statement in
`upsertEmails`: on conflict the content columns are refreshed and
`processed` is untouched; otherwise a fresh row with `processed = 0` is
inserted. -/
def upsertEmailRow (rows : List EmailRow) (m : EmailMessage) : List EmailRow :=
  if rows.any (fun r => decide (r.msg.id = m.id)) then
    rows.map (fun r => if r.msg.id = m.id then { msg := m, processed := r.processed } else r)
  else
    rows ++ [{ msg := m, processed := false }]

/-- `upsertEmails` (database.ts:93): capture the existing-id set once,
then run every insert in one transaction, counting the batch entries whose
id was not in the captured set. Returns `(newCount, db after the batch)`. -/
def upsertEmails (emails : List EmailMessage) (db : DB) : Nat × DB :=
  let existingIds := db.emails.map (fun r => r.msg.id)
  let step := fun (acc : Nat × List EmailRow) (m : EmailMessage) =>
    ((if existingIds.contains m.id then acc.1 else acc.1 + 1), upsertEmailRow acc.2 m)
  let res := emails.foldl step (0, db.emails)
  (res.1, { db with emails := res.2 })

/-- The single upsert statement of `upsertEvents`. -/
def upsertEventRow (rows : List EventRow) (e : CalendarEvent) : List EventRow :=
  if rows.any (fun r => decide (r.ev.id = e.id)) then
    rows.map (fun r => if r.ev.id = e.id then { ev := e, processed := r.processed } else r)
  else
    rows ++ [{ ev := e, processed := false }]

/-- `upsertEvents` (database.ts:165), same shape as `upsertEmails`. -/
def upsertEvents (events : List CalendarEvent) (db : DB) : Nat × DB :=
  let existingIds := db.events.map (fun r => r.ev.id)
  let step := fun (acc : Nat × List EventRow) (e : CalendarEvent) =>
    ((if existingIds.contains e.id then acc.1 else acc.1 + 1), upsertEventRow acc.2 e)
  let res := events.foldl step (0, db.events)
  (res.1, { db with events := res.2 })

/-- `getAllEmails` (database.ts:150): all email rows, `ORDER BY date DESC`
(a stable sort on the date column, newest first). -/
def getAllEmails (db : DB) : List EmailMessage :=
  ((db.emails.map (fun r => r.msg)).mergeSort (fun a b => b.date ≤ a.date))

/-- `getAllEvents` (database.ts:203): all event rows,
`ORDER BY start_time ASC`. -/
def getAllEvents (db : DB) : List CalendarEvent :=
  ((db.events.map (fun r => r.ev)).mergeSort (fun a b => a.start ≤ b.start))

/-- TS `UnprocessedItem` (database.ts:228). -/
structure UnprocessedItem where
  type : SourceType
  id : String
  data : ItemData
  deriving DecidableEq, Repr

/-- `getUnprocessedItems` (database.ts:234): email rows with
`processed = 0` first (in table order), then event rows. -/
def getUnprocessedItems (db : DB) : List UnprocessedItem :=
  (db.emails.filter (fun r => !r.processed)).map
      (fun r => { type := .email, id := r.msg.id, data := .email r.msg })
    ++ (db.events.filter (fun r => !r.processed)).map
      (fun r => { type := .calendar, id := r.ev.id, data := .calendar r.ev })

/-- `markProcessed` (database.ts:271): `UPDATE <table> SET processed = 1
WHERE id = ?` — a no-op when no row matches. -/
def markProcessed (db : DB) (type : SourceType) (id : String) : DB :=
  match type with
  | .email =>
      { db with emails :=
          db.emails.map (fun r => if r.msg.id = id then { r with processed := true } else r) }
  | .calendar =>
      { db with events :=
          db.events.map (fun r => if r.ev.id = id then { r with processed := true } else r) }

/-- `saveResearch` (database.ts:280): upsert on
`UNIQUE(source_type, source_id)`. -/
def saveResearch (db : DB) (type : SourceType) (sourceId : String)
    (result : AgentResult) : DB :=
  if db.research.any (fun row => decide (row.sourceType = type ∧ row.sourceId = sourceId)) then
    { db with research :=
        db.research.map (fun row =>
          if row.sourceType = type ∧ row.sourceId = sourceId then
            { row with result := result }
          else row) }
  else
    { db with research := db.research ++ [⟨type, sourceId, result⟩] }

/-- `getResearch` (database.ts:296). -/
def getResearch (db : DB) (type : SourceType) (sourceId : String) : Option AgentResult :=
  (db.research.find? (fun row =>
      decide (row.sourceType = type ∧ row.sourceId = sourceId))).map
    (fun row => row.result)

/-- `saveInsights` (database.ts:380): same upsert shape as `saveResearch`. -/
def saveInsights (db : DB) (type : InsightsSourceType) (sourceId : String)
    (result : InsightsResult) : DB :=
  if db.insights.any (fun row => decide (row.sourceType = type ∧ row.sourceId = sourceId)) then
    { db with insights :=
        db.insights.map (fun row =>
          if row.sourceType = type ∧ row.sourceId = sourceId then
            { row with result := result }
          else row) }
  else
    { db with insights := db.insights ++ [⟨type, sourceId, result⟩] }

/-- `getInsights` (database.ts:404). -/
def getInsights (db : DB) (type : InsightsSourceType) (sourceId : String) :
    Option InsightsResult :=
  (db.insights.find? (fun row =>
      decide (row.sourceType = type ∧ row.sourceId = sourceId))).map
    (fun row => row.result)

/-- `logActionExecution` (database.ts:426): plain `INSERT` (append). -/
def logActionExecution (db : DB) (sourceType : InsightsSourceType) (sourceId : String)
    (actionIndex : Nat) (status : String) : DB :=
  { db with actionLog := db.actionLog ++ [⟨sourceType, sourceId, actionIndex, status⟩] }

/-- `getActionLog` (database.ts:440): the entries for one source,
`ORDER BY executed_at DESC`, i.e. newest (latest appended) first. -/
def getActionLog (db : DB) (sourceType : InsightsSourceType) (sourceId : String) :
    List ActionLogEntry :=
  ((db.actionLog.filter (fun e =>
      decide (e.sourceType = sourceType ∧ e.sourceId = sourceId))).reverse)

/-! ## Research agent runner (`research-agent.ts`) -/

/-- The external language model of the research agent, as an oracle: the
whole `generateText` call (prompt building, the bounded tool loop and the
accumulated `toolCallLog` included) is a collaborator; `none` models the
invocation throwing. -/
structure ResearchEnv where
  model : ResearchInput → Option AgentResult

/-- `getSourceId` (research-agent.ts:128): both payload variants carry an
`id`, which is returned. -/
def getSourceId (input : ResearchInput) : String :=
  match input.data with
  | .email m => m.id
  | .calendar e => e.id

/-- Outcome of one `runResearchAgent` call: the returned value or thrown
error, the database afterwards, and the number of model invocations
performed by this call. -/
structure RunOutcome where
  result : Except String AgentResult
  db : DB
  modelCalls : Nat
  deriving Repr

/-- `runResearchAgent` (research-agent.ts:132): cache hit returns the
stored result untouched; otherwise invoke the model, and on success save
the result and mark the source item processed before returning. A model
throw propagates with nothing written. -/
def runResearchAgent (env : ResearchEnv) (input : ResearchInput) (db : DB) : RunOutcome :=
  let sourceId := getSourceId input
  match getResearch db input.type sourceId with
  | some cached => ⟨.ok cached, db, 0⟩
  | none =>
      match env.model input with
      | none => ⟨.error "model invocation failed", db, 1⟩
      | some agentResult =>
          let db1 := saveResearch db input.type sourceId agentResult
          let db2 := markProcessed db1 input.type sourceId
          ⟨.ok agentResult, db2, 1⟩

/-! ## Auto-processing scheduler (`research-agent.ts:212-250`) -/

/-- The mutable state of the main process that `processNewItems` touches:
the database and the module-level guard `let isProcessing = false`. -/
structure AppState where
  db : DB
  isProcessing : Bool
  deriving Repr

/-- Result of a `processNewItems` call: the returned count, the state
afterwards, the `onItemProcessed` callback invocations in order, and the
number of model invocations. -/
structure ProcessOutcome where
  returned : Nat
  state : AppState
  callbacks : List (SourceType × String)
  modelCalls : Nat
  deriving Repr

/-- Accumulated effect of the item loop of `processNewItems`. -/
structure LoopOutcome where
  count : Nat
  db : DB
  callbacks : List (SourceType × String)
  modelCalls : Nat
  deriving Repr

/-- The `for (const item of items)` loop of `processNewItems`
(research-agent.ts:234-245): per item, try `runResearchAgent`; on success
increment the count and invoke `onItemProcessed`; on a thrown error mark
that item processed anyway and continue with the next one. -/
def processLoop (env : ResearchEnv) : List UnprocessedItem → DB → LoopOutcome
  | [], db => ⟨0, db, [], 0⟩
  | item :: rest, db =>
      let out := runResearchAgent env ⟨item.type, item.data⟩ db
      match out.result with
      | .ok _ =>
          let res := processLoop env rest out.db
          ⟨res.count + 1, res.db, (item.type, item.id) :: res.callbacks,
            out.modelCalls + res.modelCalls⟩
      | .error _ =>
          let res := processLoop env rest (markProcessed out.db item.type item.id)
          ⟨res.count, res.db, res.callbacks, out.modelCalls + res.modelCalls⟩

/-- `processNewItems` (research-agent.ts:219): bail out with 0 while the
guard is held; snapshot the unprocessed items once; an empty snapshot
returns 0 without taking the guard; otherwise hold the guard for the whole
loop and release it at the end. -/
def processNewItems (env : ResearchEnv) (s : AppState) : ProcessOutcome :=
  if s.isProcessing then ⟨0, s, [], 0⟩
  else
    let items := getUnprocessedItems s.db
    if items.isEmpty then ⟨0, s, [], 0⟩
    else
      let res := processLoop env items s.db
      ⟨res.count, ⟨res.db, false⟩, res.callbacks, res.modelCalls⟩

/-- The phase of the background job: `idle`, or an active run holding the
unconsumed rest of its snapshot and the success count so far. The source
keeps this as the module boolean `isProcessing` (true exactly in the
`running` phase) plus the local loop state of the one active
`processNewItems` call. -/
inductive SchedPhase where
  | idle
  | running (remaining : List UnprocessedItem) (count : Nat)
  deriving Repr

/-- The scheduler machine state: database plus phase. Interleaved calls
from the event loop are transitions on this state; the `await` in the item
loop is the only suspension point, so a whole loop iteration is one
transition. -/
structure SchedState where
  db : DB
  phase : SchedPhase
  deriving Repr

/-- A call to `processNewItems` as a transition of the scheduler machine:
its synchronous prefix (guard check, snapshot, guard set — no suspension
point between them). Yields `some 0` when the call returns immediately
(guard held by an active run, or empty snapshot) and `none` when it starts
a run whose total is delivered at completion; the last component counts
model invocations performed by this transition. -/
def schedTrigger (s : SchedState) : Option Nat × SchedState × Nat :=
  match s.phase with
  | .running _ _ => (some 0, s, 0)
  | .idle =>
      let items := getUnprocessedItems s.db
      if items.isEmpty then (some 0, s, 0)
      else (none, { s with phase := .running items 0 }, 0)

/-- One awaited iteration of the active run's loop, or — once the snapshot
is exhausted — run completion: clear the guard and deliver the total. -/
def schedStep (env : ResearchEnv) (s : SchedState) : Option Nat × SchedState × Nat :=
  match s.phase with
  | .idle => (none, s, 0)
  | .running [] count => (some count, { s with phase := .idle }, 0)
  | .running (item :: rest) count =>
      let out := runResearchAgent env ⟨item.type, item.data⟩ s.db
      match out.result with
      | .ok _ => (none, ⟨out.db, .running rest (count + 1)⟩, out.modelCalls)
      | .error _ =>
          (none, ⟨markProcessed out.db item.type item.id, .running rest count⟩, out.modelCalls)

/-! ## Deduplicating ingestion (`main/index.ts`) -/

/-- Environment of one ingestion call: the auth flag, the outcome the
Gmail / Calendar provider would produce for this call (`Except.error`
models the fetch throwing, e.g. a network failure), and the mock fixture
collections. -/
structure IngestEnv where
  authStatus : Bool
  gmailResult : Except String (List EmailMessage)
  calendarResult : Except String (List CalendarEvent)
  mockEmails : List EmailMessage
  mockEvents : List CalendarEvent

/-- The batch `fetchAndUpsertEmails` goes on to upsert: authenticated, the
Gmail provider's items, falling back to the mock fixtures when the fetch
throws; unauthenticated, the mock fixtures directly. -/
def selectEmailBatch (env : IngestEnv) : List EmailMessage :=
  if env.authStatus then
    match env.gmailResult with
    | .ok es => es
    | .error _ => env.mockEmails
  else env.mockEmails

/-- The batch `fetchAndUpsertEvents` goes on to upsert. -/
def selectEventBatch (env : IngestEnv) : List CalendarEvent :=
  if env.authStatus then
    match env.calendarResult with
    | .ok evs => evs
    | .error _ => env.mockEvents
  else env.mockEvents

/-- `fetchAndUpsertEmails` (main/index.ts:57): select the batch (provider
or mock fallback), upsert it, call `triggerAutoProcess` iff the upsert
reports new items, return the full stored collection. Components:
returned list, database afterwards, whether the scheduler was triggered. -/
def fetchAndUpsertEmails (env : IngestEnv) (db : DB) : List EmailMessage × DB × Bool :=
  let res := upsertEmails (selectEmailBatch env) db
  (getAllEmails res.2, res.2, decide (res.1 > 0))

/-- `fetchAndUpsertEvents` (main/index.ts:81), same shape for calendar
events. -/
def fetchAndUpsertEvents (env : IngestEnv) (db : DB) : List CalendarEvent × DB × Bool :=
  let res := upsertEvents (selectEventBatch env) db
  (getAllEvents res.2, res.2, decide (res.1 > 0))

/-! ## Insights agent runner (`insights-agent.ts:146-211`) -/

/-- TS `ExternalEmailReply` (insights-mock-data.ts, shape visible from its
uses in main/index.ts and the prompt builder). -/
structure ExternalEmailReply where
  id : String
  fromAddr : String
  toAddr : String
  subject : String
  body : String
  originalEmailSubject : String
  date : String
  deriving DecidableEq, Repr

/-- A participant of a meeting transcript (`{name, role?}`). -/
structure Participant where
  name : String
  role : Option String
  deriving DecidableEq, Repr

/-- TS `MeetingTranscript` (insights-mock-data.ts, shape visible from the
prompt builder). -/
structure MeetingTranscript where
  id : String
  title : String
  date : String
  participants : List Participant
  transcript : String
  deriving DecidableEq, Repr

/-- The `data` payload of an insights input. -/
inductive InsightsItemData where
  | emailReply (r : ExternalEmailReply)
  | transcript (t : MeetingTranscript)
  deriving DecidableEq, Repr

/-- TS `InsightsInput` (insights-mock-data.ts). -/
structure InsightsInput where
  type : InsightsSourceType
  data : InsightsItemData
  deriving DecidableEq, Repr

/-- The local `getSourceId` of insights-agent.ts:142: the payload's `id`. -/
def insightsGetSourceId (input : InsightsInput) : String :=
  match input.data with
  | .emailReply r => r.id
  | .transcript t => t.id

/-- The schema-validated structured output of the insights model
(`result.output` of the constrained `generateText` call). -/
structure InsightsData where
  keyInsights : List String
  feedback : List String
  actionSteps : List ActionStep
  deriving DecidableEq, Repr

/-- Collaborators of the insights agent: the schema-constrained model
(`none` models a call that yields no structured output — which
`runInsightsAgent` turns into a thrown error — or the call itself
throwing), and the `JSON.stringify` serialization used for `rawOutput`. -/
structure InsightsEnv where
  model : InsightsInput → Option InsightsData
  serialize : InsightsData → String

/-- Outcome of one `runInsightsAgent` call. -/
structure InsightsRunOutcome where
  result : Except String InsightsResult
  db : DB
  modelCalls : Nat

/-- `runInsightsAgent` (insights-agent.ts:146): cache hit returns the
stored result untouched; otherwise invoke the model; missing structured
output throws with nothing persisted; on success persist the structured
fields plus the serialized raw copy and return them. -/
def runInsightsAgent (env : InsightsEnv) (input : InsightsInput) (db : DB) :
    InsightsRunOutcome :=
  let sourceId := insightsGetSourceId input
  match getInsights db input.type sourceId with
  | some cached => ⟨.ok cached, db, 0⟩
  | none =>
      match env.model input with
      | none => ⟨.error "Insights agent did not produce structured output", db, 1⟩
      | some d =>
          let agentResult : InsightsResult :=
            ⟨d.keyInsights, d.feedback, d.actionSteps, env.serialize d⟩
          ⟨.ok agentResult, saveInsights db input.type sourceId agentResult, 1⟩

/-! ## Action executor (`insights-agent.ts:213-366`) -/

/-- Result of `sendGmailReply(to, subject, body)`. -/
structure SendOutcome where
  success : Bool
  messageId : Option String
  error : Option String
  deriving DecidableEq, Repr

/-- The argument record of `createCalendarEvent` — the instants are kept
as local-time milliseconds; the source serializes them to ISO strings. -/
structure CalendarRequest where
  summary : String
  description : String
  startMs : Int
  endMs : Int
  attendees : List String
  deriving DecidableEq, Repr

/-- Result of `createCalendarEvent`. -/
structure CreateOutcome where
  success : Bool
  eventId : Option String
  error : Option String
  deriving DecidableEq, Repr

/-- The `status` of an `ActionExecution`. -/
inductive ExecStatus where
  | pending
  | executed
  | failed
  deriving DecidableEq, Repr

/-- TS `ActionExecution` (insights-agent.ts:215). -/
structure ActionExecution where
  actionIndex : Nat
  action : ActionStep
  status : ExecStatus
  executedAt : Option String
  messageId : Option String
  eventId : Option String
  error : Option String
  deriving DecidableEq, Repr

/-- A local-time instant: whole local days since 1970-01-01 plus
milliseconds within the day. -/
structure LocalTime where
  day : Nat
  msOfDay : Nat
  deriving DecidableEq, Repr

/-- The instant as local milliseconds (what `getTime()` arithmetic acts
on, up to the fixed UTC offset). -/
def LocalTime.toMs (t : LocalTime) : Int := (t.day : Int) * 86400000 + (t.msOfDay : Int)

/-- JS `Date.getDay()`: 0 = Sunday … 6 = Saturday; day 0 of the count
(1970-01-01) was a Thursday (= 4). -/
def dayOfWeek (day : Nat) : Nat := (day + 4) % 7

/-- Saturday or Sunday. -/
def isWeekendDay (day : Nat) : Bool := decide (dayOfWeek day = 0 ∨ dayOfWeek day = 6)

/-- The `while (next.getDay() === 0 || next.getDay() === 6)` loop of
`getNextBusinessDayStart`, with fuel: a weekend is at most two consecutive
days, so the fuel of 7 it is called with is never exhausted. -/
def skipWeekend : Nat → Nat → Nat
  | 0, day => day
  | fuel + 1, day => if isWeekendDay day then skipWeekend fuel (day + 1) else day

/-- `getNextBusinessDayStart` (insights-agent.ts:229): tomorrow, rolled
forward past weekend days, at `setHours(10, 0, 0, 0)` local. -/
def getNextBusinessDayStart (now : LocalTime) : LocalTime :=
  ⟨skipWeekend 7 (now.day + 1), 10 * 3600000⟩

/-- Collaborators of the action executor: the Gmail send provider, the
Calendar create provider, and the current instant (`new Date()`, also
serialized for `executedAt` fields). -/
structure ExecEnv where
  send : String → String → String → SendOutcome
  createEvent : CalendarRequest → CreateOutcome
  now : LocalTime
  nowIso : String

/-- Result of `executeAction`: the returned `ActionExecution`, the
database afterwards, and spy logs of every provider invocation (arguments,
in call order). -/
structure ExecResult where
  execution : ActionExecution
  db : DB
  sendLog : List (String × String × String)
  createLog : List CalendarRequest

/-- JS falsiness of an optional string field: `undefined` or `""`. -/
def isBlank : Option String → Bool
  | none => true
  | some s => decide (s = "")

/-- `executeEmailAction` (insights-agent.ts:269): if `to`, `subject` or
`body` is missing (JS-falsy), fail with a descriptive error and log
`failed` without calling the provider; otherwise send, and log / report
according to the provider outcome. -/
def executeEmailAction (env : ExecEnv) (sourceType : InsightsSourceType)
    (sourceId : String) (actionIndex : Nat) (action : ActionStep) (db : DB) : ExecResult :=
  if isBlank action.toAddr || isBlank action.subject || isBlank action.body then
    { execution := ⟨actionIndex, action, .failed, none, none, none,
        some "Missing email fields (to, subject, or body). Cannot send."⟩,
      db := logActionExecution db sourceType sourceId actionIndex "failed",
      sendLog := [], createLog := [] }
  else
    -- here the gate guarantees the three fields are present and non-empty
    let t := action.toAddr.getD ""
    let subj := action.subject.getD ""
    let b := action.body.getD ""
    let result := env.send t subj b
    if result.success then
      { execution := ⟨actionIndex, action, .executed, some env.nowIso,
          result.messageId, none, none⟩,
        db := logActionExecution db sourceType sourceId actionIndex "executed",
        sendLog := [(t, subj, b)], createLog := [] }
    else
      { execution := ⟨actionIndex, action, .failed, none, none, none, result.error⟩,
        db := logActionExecution db sourceType sourceId actionIndex "failed",
        sendLog := [(t, subj, b)], createLog := [] }

/-- `executeMeetingAction` (insights-agent.ts:319): defaults follow the
JS `||` falsiness of the source (`meetingSummary || description`,
`attendees || []`, `durationMinutes || 30` — so a 0 duration also falls
back to 30); start is the next business day at 10:00, end is start plus
the duration. -/
def executeMeetingAction (env : ExecEnv) (sourceType : InsightsSourceType)
    (sourceId : String) (actionIndex : Nat) (action : ActionStep) (db : DB) : ExecResult :=
  let summary :=
    match action.meetingSummary with
    | some s => if s = "" then action.description else s
    | none => action.description
  let attendees := action.attendees.getD []
  let durationMinutes : Int :=
    match action.durationMinutes with
    | some d => if d = 0 then 30 else d
    | none => 30
  let start := getNextBusinessDayStart env.now
  let endMs : Int := start.toMs + durationMinutes * 60 * 1000
  let req : CalendarRequest := ⟨summary, action.details, start.toMs, endMs, attendees⟩
  let result := env.createEvent req
  if result.success then
    { execution := ⟨actionIndex, action, .executed, some env.nowIso,
        none, result.eventId, none⟩,
      db := logActionExecution db sourceType sourceId actionIndex "executed",
      sendLog := [], createLog := [req] }
  else
    { execution := ⟨actionIndex, action, .failed, none, none, none, result.error⟩,
      db := logActionExecution db sourceType sourceId actionIndex "failed",
      sendLog := [], createLog := [req] }

/-- `executeAction` (insights-agent.ts:243): look up the cached insights
(absence throws), index into its action steps (out of range throws), then
dispatch on the action type. -/
def executeAction (env : ExecEnv) (sourceType : InsightsSourceType) (sourceId : String)
    (actionIndex : Nat) (db : DB) : Except String ExecResult :=
  match getInsights db sourceType sourceId with
  | none => .error "No insights found for this source"
  | some insights =>
      match insights.actionSteps[actionIndex]? with
      | none => .error ("Action at index " ++ toString actionIndex ++ " not found")
      | some action =>
          if action.type = ActionType.email then
            .ok (executeEmailAction env sourceType sourceId actionIndex action db)
          else
            .ok (executeMeetingAction env sourceType sourceId actionIndex action db)

/-! ## Specification predicates -/

/-- The item `(type, id)` is processed: every row of the corresponding
table carrying that id has `processed = 1`. -/
def itemProcessed (db : DB) (type : SourceType) (id : String) : Bool :=
  match type with
  | .email => db.emails.all (fun r => decide (r.msg.id = id → r.processed = true))
  | .calendar => db.events.all (fun r => decide (r.ev.id = id → r.processed = true))

/-- Well-formedness the SQLite schema enforces: `id` is the primary key of
`emails` and of `events`, so ids are unique within each table. -/
def DB.WF (db : DB) : Prop :=
  (db.emails.map (fun r => r.msg.id)).Nodup ∧ (db.events.map (fun r => r.ev.id)).Nodup

instance (db : DB) : Decidable db.WF := by
  unfold DB.WF
  infer_instance

/-- The research-cache key of an unprocessed item. -/
def itemKey (i : UnprocessedItem) : SourceType × String := (i.type, i.id)

/-- The reachability invariant the scheduler claims rely on: an item still
pending has no cached research result (the write path creates the cache
entry and sets `processed` in the same call). -/
def NoCachedPending (db : DB) : Prop :=
  ∀ i ∈ getUnprocessedItems db, getResearch db i.type i.id = none

instance (db : DB) : Decidable (NoCachedPending db) := by
  unfold NoCachedPending
  exact List.decidableBAll _ _

/-! ## Concrete fixtures for witnesses and counterexamples -/

/-- A small email fixture. -/
def mkEmail (id subject : String) : EmailMessage :=
  ⟨id, "alice@ext.com", "me@mycompany.com", subject, "snippet", "body", "2026-02-08T10:00:00Z"⟩

/-- An unprocessed email row. -/
def mkRow (id subject : String) : EmailRow := ⟨mkEmail id subject, false⟩

/-- Database with three unprocessed emails `e1 e2 e3`. -/
def dbThree : DB :=
  ⟨[mkRow "e1" "s1", mkRow "e2" "s2", mkRow "e3" "s3"], [], [], [], []⟩

/-- A canned research result. -/
def resultFor (id : String) : AgentResult := ⟨"research for " ++ id, [⟨"linkupSearch", id⟩]⟩

/-- A research model that always fails on item `e2` and succeeds
elsewhere — the poison-pill scenario. -/
def envPoison : ResearchEnv :=
  ⟨fun input => if getSourceId input = "e2" then none else some (resultFor (getSourceId input))⟩

/-- A research model that always succeeds. -/
def envOk : ResearchEnv :=
  ⟨fun input => some (resultFor (getSourceId input))⟩

/-- A research model that always throws. -/
def envFail : ResearchEnv := ⟨fun _ => none⟩

/-- A concrete research input over item `e1`. -/
def inputE1 : ResearchInput := ⟨.email, .email (mkEmail "e1" "s1")⟩

/-- `dbThree` with a research result already cached for `e1`. -/
def dbCachedE1 : DB :=
  ⟨[mkRow "e1" "s1", mkRow "e2" "s2", mkRow "e3" "s3"], [],
    [⟨.email, "e1", resultFor "e1"⟩], [], []⟩

/-- An email action step with every field populated and non-empty. -/
def actionEmailFull : ActionStep :=
  ⟨.email, "Reply", "send the reply", some "alice@ext.com", some "Re: hello",
    some "Hi Alice", none, none, none⟩

/-- An email action step whose `to` field is present but the empty
string — JS-falsy although not absent. -/
def actionEmailEmptyTo : ActionStep :=
  ⟨.email, "Reply", "send the reply", some "", some "Re: hello",
    some "Hi Alice", none, none, none⟩

/-- An email action step with `body` absent. -/
def actionEmailNoBody : ActionStep :=
  ⟨.email, "Reply", "send the reply", some "alice@ext.com", some "Re: hello",
    none, none, none, none⟩

/-- A meeting action step with a present but zero `durationMinutes`. -/
def actionMeetingZeroDur : ActionStep :=
  ⟨.meeting, "Sync", "quick sync", none, none, none, some "Sync call",
    some ["alice@ext.com"], some 0⟩

/-- A meeting action step with `durationMinutes` absent. -/
def actionMeetingNoDur : ActionStep :=
  ⟨.meeting, "Sync", "quick sync", none, none, none, some "Sync call",
    some ["alice@ext.com"], none⟩

/-- A meeting action step with `durationMinutes = 45`. -/
def actionMeeting45 : ActionStep :=
  ⟨.meeting, "Sync", "quick sync", none, none, none, some "Sync call",
    some ["alice@ext.com"], some 45⟩

/-- An insights result holding the fixture action steps. -/
def insightsFix : InsightsResult :=
  ⟨["k1", "k2", "k3"], ["f1", "f2"],
    [actionEmailFull, actionEmailEmptyTo, actionEmailNoBody,
      actionMeetingZeroDur, actionMeetingNoDur, actionMeeting45], "raw"⟩

/-- Database holding `insightsFix` under key `(email-reply, r1)`. -/
def dbInsights : DB := ⟨[], [], [], [⟨.emailReply, "r1", insightsFix⟩], []⟩

/-- An executor environment whose providers always succeed; `now` is local
day 0 (Thursday 1970-01-01) at midnight. -/
def envExecOk : ExecEnv :=
  ⟨fun _ _ _ => ⟨true, some "MSG-1", none⟩,
    fun _ => ⟨true, some "EVT-1", none⟩,
    ⟨0, 0⟩, "1970-01-01T00:00:00.000Z"⟩

/-- An ingestion environment: authenticated but the Gmail and Calendar
fetches both throw; mock fixtures are two fresh emails and one event. -/
def envIngestFail : IngestEnv :=
  ⟨true, .error "Not authenticated with Google", .error "network down",
    [mkEmail "e1" "s1", mkEmail "e2" "s2"],
    [⟨"ev1", "standup", "daily", "2026-02-09T09:00:00Z", "2026-02-09T09:15:00Z", [], none⟩]⟩

/-- A concrete insights input over reply `r1`. -/
def inputR1 : InsightsInput :=
  ⟨.emailReply, .emailReply ⟨"r1", "alice@ext.com", "me@mycompany.com",
    "Re: hello", "sounds good", "hello", "2026-02-08T11:00:00Z"⟩⟩

/-- An insights environment that always produces `insightsFix`'s fields. -/
def envInsightsOk : InsightsEnv :=
  ⟨fun _ => some ⟨insightsFix.keyInsights, insightsFix.feedback, insightsFix.actionSteps⟩,
    fun _ => "raw"⟩

/-- An executor environment whose `now` is local day 1 (Friday 1970-01-02)
at 15:00 — the spec's Friday-afternoon example. -/
def envExecFriday : ExecEnv :=
  ⟨fun _ _ _ => ⟨true, some "MSG-1", none⟩,
    fun _ => ⟨true, some "EVT-1", none⟩,
    ⟨1, 54000000⟩, "1970-01-02T15:00:00.000Z"⟩

end Pipeline

namespace Pipeline

/-! ## Structural store lemmas -/

theorem saveResearch_emails (db : DB) (t : SourceType) (id : String) (r : AgentResult) :
    (saveResearch db t id r).emails = db.emails := by
  unfold saveResearch
  split <;> rfl

theorem saveResearch_events (db : DB) (t : SourceType) (id : String) (r : AgentResult) :
    (saveResearch db t id r).events = db.events := by
  unfold saveResearch
  split <;> rfl

theorem markProcessed_research (db : DB) (t : SourceType) (id : String) :
    (markProcessed db t id).research = db.research := by
  cases t <;> rfl

theorem getResearch_markProcessed (db : DB) (t t' : SourceType) (id id' : String) :
    getResearch (markProcessed db t id) t' id' = getResearch db t' id' := by
  unfold getResearch
  rw [markProcessed_research]

theorem itemProcessed_saveResearch (db : DB) (t' : SourceType) (id' : String)
    (r : AgentResult) (t : SourceType) (id : String) :
    itemProcessed (saveResearch db t' id' r) t id = itemProcessed db t id := by
  cases t <;> simp only [itemProcessed, saveResearch_emails, saveResearch_events]

/-- The research-row update of `saveResearch` never changes key columns,
so the lookup predicate is invariant under it. -/
theorem researchUpd_key (t : SourceType) (id : String) (r : AgentResult)
    (row : ResearchRow) :
    ((if row.sourceType = t ∧ row.sourceId = id then { row with result := r }
        else row).sourceType,
      (if row.sourceType = t ∧ row.sourceId = id then { row with result := r }
        else row).sourceId) = (row.sourceType, row.sourceId) := by
  split <;> rfl

theorem researchUpd_pred (t : SourceType) (id : String) (r : AgentResult)
    (t' : SourceType) (id' : String) :
    ((fun row => decide (row.sourceType = t' ∧ row.sourceId = id')) ∘
        (fun (row : ResearchRow) => if row.sourceType = t ∧ row.sourceId = id then
          { row with result := r } else row))
      = (fun (row : ResearchRow) => decide (row.sourceType = t' ∧ row.sourceId = id')) := by
  funext row
  simp only [Function.comp_apply]
  by_cases hrow : row.sourceType = t ∧ row.sourceId = id
  · rw [if_pos hrow]
  · rw [if_neg hrow]

theorem getResearch_saveResearch_self (db : DB) (t : SourceType) (id : String)
    (r : AgentResult) :
    getResearch (saveResearch db t id r) t id = some r := by
  unfold saveResearch getResearch
  by_cases h : db.research.any
      (fun row => decide (row.sourceType = t ∧ row.sourceId = id)) = true
  · simp only [h, if_true]
    rw [List.find?_map, researchUpd_pred]
    obtain ⟨f, hmemf, hPf⟩ := List.any_eq_true.mp h
    have hsome : (db.research.find?
        (fun row => decide (row.sourceType = t ∧ row.sourceId = id))).isSome := by
      rw [List.find?_isSome]
      exact ⟨f, hmemf, hPf⟩
    obtain ⟨g, hg⟩ := Option.isSome_iff_exists.mp hsome
    have hPg := List.find?_some hg
    rw [decide_eq_true_eq] at hPg
    rw [hg]
    simp [hPg]
  · have hnone : db.research.find?
        (fun row => decide (row.sourceType = t ∧ row.sourceId = id)) = none := by
      rw [List.find?_eq_none]
      intro x hx hpx
      exact h (List.any_eq_true.mpr ⟨x, hx, hpx⟩)
    rw [Bool.not_eq_true] at h
    simp only [h, Bool.false_eq_true, if_false]
    rw [List.find?_append, hnone]
    simp [List.find?]

theorem getResearch_saveResearch_ne (db : DB) (t : SourceType) (id : String)
    (r : AgentResult) (t' : SourceType) (id' : String)
    (hne : ¬(t' = t ∧ id' = id)) :
    getResearch (saveResearch db t id r) t' id' = getResearch db t' id' := by
  unfold saveResearch getResearch
  by_cases h : db.research.any
      (fun row => decide (row.sourceType = t ∧ row.sourceId = id)) = true
  · simp only [h, if_true]
    rw [List.find?_map, researchUpd_pred]
    cases hf : db.research.find?
        (fun row => decide (row.sourceType = t' ∧ row.sourceId = id')) with
    | none => simp
    | some g =>
        have hPg := List.find?_some hf
        rw [decide_eq_true_eq] at hPg
        have hgne : ¬(g.sourceType = t ∧ g.sourceId = id) := by
          intro hcontra
          exact hne ⟨hPg.1 ▸ hcontra.1, hPg.2 ▸ hcontra.2⟩
        simp [hgne]
  · rw [Bool.not_eq_true] at h
    simp only [h, Bool.false_eq_true, if_false]
    rw [List.find?_append]
    have hlast : ([(⟨t, id, r⟩ : ResearchRow)].find?
        (fun row => decide (row.sourceType = t' ∧ row.sourceId = id'))) = none := by
      rw [List.find?_eq_none]
      intro x hx
      rw [List.mem_singleton] at hx
      subst hx
      simp only [decide_eq_true_eq, not_and]
      intro h1 h2
      exact hne ⟨h1.symm, h2.symm⟩
    rw [hlast]
    cases db.research.find?
        (fun row => decide (row.sourceType = t' ∧ row.sourceId = id')) <;> rfl

theorem itemProcessed_markProcessed_self (db : DB) (t : SourceType) (id : String) :
    itemProcessed (markProcessed db t id) t id = true := by
  cases t with
  | email =>
      simp only [itemProcessed, markProcessed, List.all_eq_true]
      intro x hx
      rw [List.mem_map] at hx
      obtain ⟨r, hr, rfl⟩ := hx
      by_cases h : r.msg.id = id <;> simp [h]
  | calendar =>
      simp only [itemProcessed, markProcessed, List.all_eq_true]
      intro x hx
      rw [List.mem_map] at hx
      obtain ⟨r, hr, rfl⟩ := hx
      by_cases h : r.ev.id = id <;> simp [h]

theorem itemProcessed_markProcessed_mono (db : DB) (t' : SourceType) (id' : String)
    (t : SourceType) (id : String) (h : itemProcessed db t id = true) :
    itemProcessed (markProcessed db t' id') t id = true := by
  cases t with
  | email =>
      cases t' with
      | calendar => simpa only [itemProcessed, markProcessed] using h
      | email =>
          simp only [itemProcessed, markProcessed, List.all_eq_true] at h ⊢
          intro x hx
          rw [List.mem_map] at hx
          obtain ⟨r, hr, rfl⟩ := hx
          have hro := h r hr
          rw [decide_eq_true_eq] at hro
          by_cases hid : r.msg.id = id'
          · rw [if_pos hid]
            simp only [decide_eq_true_eq]
            intro _
            trivial
          · rw [if_neg hid]
            simp only [decide_eq_true_eq]
            exact hro
  | calendar =>
      cases t' with
      | email => simpa only [itemProcessed, markProcessed] using h
      | calendar =>
          simp only [itemProcessed, markProcessed, List.all_eq_true] at h ⊢
          intro x hx
          rw [List.mem_map] at hx
          obtain ⟨r, hr, rfl⟩ := hx
          have hro := h r hr
          rw [decide_eq_true_eq] at hro
          by_cases hid : r.ev.id = id'
          · rw [if_pos hid]
            simp only [decide_eq_true_eq]
            intro _
            trivial
          · rw [if_neg hid]
            simp only [decide_eq_true_eq]
            exact hro

/-! ## `runResearchAgent` unfolding lemmas -/

theorem runResearchAgent_hit (env : ResearchEnv) (input : ResearchInput) (db : DB)
    (c : AgentResult) (h : getResearch db input.type (getSourceId input) = some c) :
    runResearchAgent env input db = ⟨.ok c, db, 0⟩ := by
  simp only [runResearchAgent]
  rw [h]

theorem runResearchAgent_missFail (env : ResearchEnv) (input : ResearchInput) (db : DB)
    (h1 : getResearch db input.type (getSourceId input) = none)
    (h2 : env.model input = none) :
    runResearchAgent env input db = ⟨.error "model invocation failed", db, 1⟩ := by
  simp only [runResearchAgent]
  rw [h1, h2]

theorem runResearchAgent_missOk (env : ResearchEnv) (input : ResearchInput) (db : DB)
    (r : AgentResult) (h1 : getResearch db input.type (getSourceId input) = none)
    (h2 : env.model input = some r) :
    runResearchAgent env input db
      = ⟨.ok r, markProcessed (saveResearch db input.type (getSourceId input) r)
          input.type (getSourceId input), 1⟩ := by
  simp only [runResearchAgent]
  rw [h1, h2]

/-! ## Claim C1 -/

/-- C1: the auto-processing scheduler is single-flight. The machine state
holds at most one active run by construction (`SchedPhase` has a single
`running` slot, the image of the one module-level boolean guard), and a
`processNewItems` call arriving while a run is active — i.e. hitting the
`running` phase, equivalently observing `isProcessing = true` — returns 0
at once, leaves the whole state (database included) unchanged, performs no
callbacks and invokes the research agent's model zero times. -/
theorem processNewItems_singleFlight :
    (∀ (db : DB) (remaining : List UnprocessedItem) (count : Nat),
        schedTrigger ⟨db, .running remaining count⟩
          = (some 0, ⟨db, .running remaining count⟩, 0))
    ∧ (∀ (env : ResearchEnv) (db : DB),
        processNewItems env ⟨db, true⟩ = ⟨0, ⟨db, true⟩, [], 0⟩) :=
  ⟨fun _ _ _ => rfl, fun _ _ => rfl⟩

/-! ## Claim C5 -/

/-- C5: cache-hit short-circuit. If the store already holds a research
result for the input's cache key, `runResearchAgent` returns exactly that
result with the database unchanged and zero model invocations; hence after
any successful call a second call for the same key returns the identical
result without invoking the model; and `runInsightsAgent` short-circuits
the same way on its own cache. -/
theorem cacheHit_shortCircuit (env : ResearchEnv) (input : ResearchInput) (db : DB) :
    (∀ r, getResearch db input.type (getSourceId input) = some r →
        runResearchAgent env input db = ⟨.ok r, db, 0⟩)
    ∧ (∀ a, (runResearchAgent env input db).result = .ok a →
        runResearchAgent env input (runResearchAgent env input db).db
          = ⟨.ok a, (runResearchAgent env input db).db, 0⟩)
    ∧ (∀ (ienv : InsightsEnv) (iinput : InsightsInput) (idb : DB) (ir : InsightsResult),
        getInsights idb iinput.type (insightsGetSourceId iinput) = some ir →
        runInsightsAgent ienv iinput idb = ⟨.ok ir, idb, 0⟩) := by
  refine ⟨fun r h => runResearchAgent_hit env input db r h, ?_, ?_⟩
  · intro a ha
    cases hc : getResearch db input.type (getSourceId input) with
    | some c =>
        have h1 := runResearchAgent_hit env input db c hc
        rw [h1] at ha
        have hac : c = a := by simpa using ha
        subst hac
        have hdb : (runResearchAgent env input db).db = db := by rw [h1]
        rw [hdb]
        exact runResearchAgent_hit env input db c hc
    | none =>
        cases hm : env.model input with
        | none =>
            rw [runResearchAgent_missFail env input db hc hm] at ha
            exact absurd ha (by simp)
        | some r =>
            have h1 := runResearchAgent_missOk env input db r hc hm
            rw [h1] at ha
            have har : r = a := by simpa using ha
            subst har
            have hdb : (runResearchAgent env input db).db
                = markProcessed (saveResearch db input.type (getSourceId input) r)
                    input.type (getSourceId input) := by rw [h1]
            rw [hdb]
            apply runResearchAgent_hit
            rw [getResearch_markProcessed, getResearch_saveResearch_self]
  · intro ienv iinput idb ir h
    simp only [runInsightsAgent]
    rw [h]

/-- Witness for C5: on `dbCachedE1` (which caches a result for
`(email, e1)`) even the always-throwing model environment returns the
cached result with the database untouched and no model call. -/
theorem cacheHit_shortCircuit_witness :
    runResearchAgent envFail inputE1 dbCachedE1
      = ⟨.ok (resultFor "e1"), dbCachedE1, 0⟩ :=
  (cacheHit_shortCircuit envFail inputE1 dbCachedE1).1 (resultFor "e1") (by decide)

/-! ## Claim C4 -/

/-- C4: research persistence is atomic with processed-marking. On a cache
miss, a successful model invocation leads to the result being returned,
stored under the cache key, and the source item marked processed — all
within the same call; a failing model invocation surfaces the error with
the database exactly as before (no cache entry, `processed` untouched). -/
theorem researchPersistence_atomic (env : ResearchEnv) (input : ResearchInput) (db : DB)
    (h : getResearch db input.type (getSourceId input) = none) :
    (∀ r, env.model input = some r →
        (runResearchAgent env input db).result = .ok r
        ∧ getResearch (runResearchAgent env input db).db input.type (getSourceId input)
            = some r
        ∧ itemProcessed (runResearchAgent env input db).db input.type (getSourceId input)
            = true)
    ∧ (env.model input = none →
        runResearchAgent env input db = ⟨.error "model invocation failed", db, 1⟩) := by
  constructor
  · intro r hm
    have h1 := runResearchAgent_missOk env input db r h hm
    have hdb : (runResearchAgent env input db).db
        = markProcessed (saveResearch db input.type (getSourceId input) r)
            input.type (getSourceId input) := by rw [h1]
    refine ⟨by rw [h1], ?_, ?_⟩
    · rw [hdb, getResearch_markProcessed, getResearch_saveResearch_self]
    · rw [hdb]
      exact itemProcessed_markProcessed_self _ _ _
  · intro hm
    exact runResearchAgent_missFail env input db h hm

/-- Witness for C4: a fresh item `e1` with an always-succeeding model gets
its result returned, cached, and its row marked processed. -/
theorem researchPersistence_atomic_witness :
    (runResearchAgent envOk inputE1 dbThree).result = .ok (resultFor "e1")
    ∧ getResearch (runResearchAgent envOk inputE1 dbThree).db .email "e1"
        = some (resultFor "e1")
    ∧ itemProcessed (runResearchAgent envOk inputE1 dbThree).db .email "e1" = true :=
  (researchPersistence_atomic envOk inputE1 dbThree (by decide)).1 (resultFor "e1") (by decide)

/-! ## Scheduler loop lemmas -/

theorem runResearchAgent_db_cases (env : ResearchEnv) (input : ResearchInput) (db : DB) :
    (runResearchAgent env input db).db = db
    ∨ ∃ r, (runResearchAgent env input db).db
        = markProcessed (saveResearch db input.type (getSourceId input) r)
            input.type (getSourceId input) := by
  cases hc : getResearch db input.type (getSourceId input) with
  | some c => left; rw [runResearchAgent_hit env input db c hc]
  | none =>
      cases hm : env.model input with
      | none => left; rw [runResearchAgent_missFail env input db hc hm]
      | some r => right; exact ⟨r, by rw [runResearchAgent_missOk env input db r hc hm]⟩

theorem itemProcessed_runResearchAgent_mono (env : ResearchEnv) (input : ResearchInput)
    (db : DB) (t : SourceType) (id : String) (h : itemProcessed db t id = true) :
    itemProcessed (runResearchAgent env input db).db t id = true := by
  rcases runResearchAgent_db_cases env input db with hdb | ⟨r, hdb⟩ <;> rw [hdb]
  · exact h
  · apply itemProcessed_markProcessed_mono
    rw [itemProcessed_saveResearch]
    exact h

theorem runResearchAgent_getResearch_frozen (env : ResearchEnv) (input : ResearchInput)
    (db : DB) (t : SourceType) (id : String)
    (hne : ¬(input.type = t ∧ getSourceId input = id)) :
    getResearch (runResearchAgent env input db).db t id = getResearch db t id := by
  rcases runResearchAgent_db_cases env input db with hdb | ⟨r, hdb⟩ <;> rw [hdb]
  rw [getResearch_markProcessed]
  apply getResearch_saveResearch_ne
  intro hcontra
  exact hne ⟨hcontra.1.symm, hcontra.2.symm⟩

theorem processLoop_processed_mono (env : ResearchEnv) :
    ∀ (items : List UnprocessedItem) (db : DB) (t : SourceType) (id : String),
    itemProcessed db t id = true →
    itemProcessed (processLoop env items db).db t id = true := by
  intro items
  induction items with
  | nil => intro db t id h; simpa [processLoop] using h
  | cons head tail ih =>
      intro db t id h
      simp only [processLoop]
      cases hres : (runResearchAgent env ⟨head.type, head.data⟩ db).result with
      | ok a =>
          exact ih _ t id (itemProcessed_runResearchAgent_mono env _ db t id h)
      | error e =>
          exact ih _ t id (itemProcessed_markProcessed_mono _ _ _ _ _
            (itemProcessed_runResearchAgent_mono env _ db t id h))

theorem processLoop_getResearch_frozen (env : ResearchEnv) :
    ∀ (items : List UnprocessedItem) (db : DB) (t : SourceType) (id : String),
    (∀ i ∈ items, ¬(i.type = t ∧ getSourceId ⟨i.type, i.data⟩ = id)) →
    getResearch (processLoop env items db).db t id = getResearch db t id := by
  intro items
  induction items with
  | nil => intro db t id _; rfl
  | cons head tail ih =>
      intro db t id hne
      have hnehead : ¬(head.type = t ∧ getSourceId ⟨head.type, head.data⟩ = id) :=
        hne head (by simp)
      simp only [processLoop]
      cases hres : (runResearchAgent env ⟨head.type, head.data⟩ db).result with
      | ok a =>
          rw [ih _ t id (fun i hi => hne i (by simp [hi]))]
          exact runResearchAgent_getResearch_frozen env _ db t id hnehead
      | error e =>
          rw [ih _ t id (fun i hi => hne i (by simp [hi])), getResearch_markProcessed]
          exact runResearchAgent_getResearch_frozen env _ db t id hnehead

/-- The workhorse behind the scheduler claims: over a snapshot whose items
carry consistent ids, pairwise-distinct cache keys, and no pre-existing
cache entries, the loop (i) marks every snapshot item processed, (ii)
caches the model result of every item whose model call succeeds, (iii)
fires the callbacks exactly for the successful items in snapshot order,
and (iv) returns the number of successful items. -/
theorem processLoop_spec (env : ResearchEnv) :
    ∀ (items : List UnprocessedItem) (db : DB),
    (∀ i ∈ items, getSourceId ⟨i.type, i.data⟩ = i.id) →
    ((items.map itemKey).Nodup) →
    (∀ i ∈ items, getResearch db i.type i.id = none) →
    (∀ i ∈ items, itemProcessed (processLoop env items db).db i.type i.id = true)
    ∧ (∀ i ∈ items, ∀ r, env.model ⟨i.type, i.data⟩ = some r →
        getResearch (processLoop env items db).db i.type i.id = some r)
    ∧ (processLoop env items db).callbacks
        = (items.filter (fun i => (env.model ⟨i.type, i.data⟩).isSome)).map itemKey
    ∧ (processLoop env items db).count
        = (items.filter (fun i => (env.model ⟨i.type, i.data⟩).isSome)).length := by
  intro items
  induction items with
  | nil =>
      intro db _ _ _
      exact ⟨by simp, by simp, by simp [processLoop], by simp [processLoop]⟩
  | cons head tail ih =>
      intro db hid hkeys hcache
      have hid0 : getSourceId ⟨head.type, head.data⟩ = head.id := hid head (by simp)
      have hc0 : getResearch db head.type (getSourceId ⟨head.type, head.data⟩) = none := by
        rw [hid0]
        exact hcache head (by simp)
      rw [List.map_cons] at hkeys
      have hknotin : itemKey head ∉ tail.map itemKey := (List.nodup_cons.mp hkeys).1
      have hkeystail : (tail.map itemKey).Nodup := (List.nodup_cons.mp hkeys).2
      have hne_tail : ∀ i ∈ tail, ¬(i.type = head.type ∧ i.id = head.id) := by
        intro i hi hcontra
        apply hknotin
        rw [List.mem_map]
        exact ⟨i, hi, by simp [itemKey, hcontra.1, hcontra.2]⟩
      have hidtail : ∀ i ∈ tail, getSourceId ⟨i.type, i.data⟩ = i.id :=
        fun i hi => hid i (by simp [hi])
      have hfrozen_pre : ∀ i ∈ tail,
          ¬(i.type = head.type ∧ getSourceId ⟨i.type, i.data⟩ = head.id) := by
        intro i hi hcontra
        exact hne_tail i hi ⟨hcontra.1, (hidtail i hi).symm.trans hcontra.2⟩
      cases hm : env.model ⟨head.type, head.data⟩ with
      | some r =>
          have hrun := runResearchAgent_missOk env ⟨head.type, head.data⟩ db r hc0 hm
          rw [hid0] at hrun
          have hcachetail : ∀ i ∈ tail,
              getResearch (markProcessed (saveResearch db head.type head.id r)
                head.type head.id) i.type i.id = none := by
            intro i hi
            rw [getResearch_markProcessed]
            rw [getResearch_saveResearch_ne _ _ _ _ _ _ (hne_tail i hi)]
            exact hcache i (by simp [hi])
          obtain ⟨ih1, ih2, ih3, ih4⟩ :=
            ih (markProcessed (saveResearch db head.type head.id r) head.type head.id)
              hidtail hkeystail hcachetail
          simp only [processLoop, hrun]
          refine ⟨?_, ?_, ?_, ?_⟩
          · intro i hi
            rcases List.mem_cons.mp hi with rfl | hitail
            · apply processLoop_processed_mono
              exact itemProcessed_markProcessed_self _ _ _
            · exact ih1 i hitail
          · intro i hi r' hmr'
            rcases List.mem_cons.mp hi with rfl | hitail
            · rw [hm] at hmr'
              have hrr : r = r' := by injection hmr'
              subst hrr
              rw [processLoop_getResearch_frozen env tail _ i.type i.id hfrozen_pre]
              rw [getResearch_markProcessed]
              exact getResearch_saveResearch_self _ _ _ _
            · exact ih2 i hitail r' hmr'
          · rw [List.filter_cons_of_pos (by simp [hm]), List.map_cons]
            rw [ih3]
            rfl
          · rw [List.filter_cons_of_pos (by simp [hm]), List.length_cons]
            rw [ih4]
      | none =>
          have hrun := runResearchAgent_missFail env ⟨head.type, head.data⟩ db hc0 hm
          have hcachetail : ∀ i ∈ tail,
              getResearch (markProcessed db head.type head.id) i.type i.id = none := by
            intro i hi
            rw [getResearch_markProcessed]
            exact hcache i (by simp [hi])
          obtain ⟨ih1, ih2, ih3, ih4⟩ :=
            ih (markProcessed db head.type head.id) hidtail hkeystail hcachetail
          simp only [processLoop, hrun]
          refine ⟨?_, ?_, ?_, ?_⟩
          · intro i hi
            rcases List.mem_cons.mp hi with rfl | hitail
            · apply processLoop_processed_mono
              exact itemProcessed_markProcessed_self _ _ _
            · exact ih1 i hitail
          · intro i hi r' hmr'
            rcases List.mem_cons.mp hi with rfl | hitail
            · rw [hm] at hmr'
              exact absurd hmr' (by simp)
            · exact ih2 i hitail r' hmr'
          · rw [List.filter_cons_of_neg (by simp [hm])]
            exact ih3
          · rw [List.filter_cons_of_neg (by simp [hm])]
            exact ih4

/-! ## Snapshot well-formedness bridges -/

theorem getUnprocessedItems_sourceId (db : DB) :
    ∀ i ∈ getUnprocessedItems db, getSourceId ⟨i.type, i.data⟩ = i.id := by
  intro i hi
  unfold getUnprocessedItems at hi
  rw [List.mem_append] at hi
  rcases hi with hi | hi <;>
    · rw [List.mem_map] at hi
      obtain ⟨r, hr, rfl⟩ := hi
      rfl

theorem getUnprocessedItems_keys (db : DB) (h : db.WF) :
    ((getUnprocessedItems db).map itemKey).Nodup := by
  unfold getUnprocessedItems
  rw [List.map_append]
  apply List.Nodup.append
  · rw [List.map_map]
    have hnd : ((db.emails.filter (fun r => !r.processed)).map (fun r => r.msg.id)).Nodup :=
      h.1.sublist ((List.filter_sublist _).map _)
    have heq : ((db.emails.filter (fun r => !r.processed)).map
          (itemKey ∘ fun r => (⟨.email, r.msg.id, .email r.msg⟩ : UnprocessedItem)))
        = ((db.emails.filter (fun r => !r.processed)).map (fun r => r.msg.id)).map
            (fun id => (SourceType.email, id)) := by
      rw [List.map_map]
      apply List.map_congr_left
      intro r _
      rfl
    rw [heq]
    exact hnd.map (fun a b hab => by simpa using hab)
  · rw [List.map_map]
    have hnd : ((db.events.filter (fun r => !r.processed)).map (fun r => r.ev.id)).Nodup :=
      h.2.sublist ((List.filter_sublist _).map _)
    have heq : ((db.events.filter (fun r => !r.processed)).map
          (itemKey ∘ fun r => (⟨.calendar, r.ev.id, .calendar r.ev⟩ : UnprocessedItem)))
        = ((db.events.filter (fun r => !r.processed)).map (fun r => r.ev.id)).map
            (fun id => (SourceType.calendar, id)) := by
      rw [List.map_map]
      apply List.map_congr_left
      intro r _
      rfl
    rw [heq]
    exact hnd.map (fun a b hab => by simpa using hab)
  · intro a ha hb
    rw [List.mem_map] at ha hb
    obtain ⟨u, hu, rfl⟩ := ha
    obtain ⟨v, hv, hva⟩ := hb
    rw [List.mem_map] at hu hv
    obtain ⟨re, _, rfl⟩ := hu
    obtain ⟨rv, _, rfl⟩ := hv
    simp [itemKey] at hva

/-- When the snapshot is non-empty and the guard is clear,
`processNewItems` is the loop over the snapshot with the guard released at
the end. -/
theorem processNewItems_run (env : ResearchEnv) (db : DB)
    (hemp : (getUnprocessedItems db).isEmpty = false) :
    processNewItems env ⟨db, false⟩
      = ⟨(processLoop env (getUnprocessedItems db) db).count,
          ⟨(processLoop env (getUnprocessedItems db) db).db, false⟩,
          (processLoop env (getUnprocessedItems db) db).callbacks,
          (processLoop env (getUnprocessedItems db) db).modelCalls⟩ := by
  simp [processNewItems, hemp]

/-! ## Claim C2 -/

/-- C2: poison-pill forward progress. On a well-formed database whose
pending items are uncached (the reachable-state invariant), one completed
`processNewItems` run leaves every item of the unprocessed snapshot marked
processed — items whose model call throws are marked via the catch branch
and do not abort the run — and every item whose model call succeeds
additionally holds its cached research result. -/
theorem processNewItems_poisonPill (env : ResearchEnv) (db : DB)
    (hWF : db.WF) (hcache : NoCachedPending db) :
    (∀ i ∈ getUnprocessedItems db,
        itemProcessed (processNewItems env ⟨db, false⟩).state.db i.type i.id = true)
    ∧ (∀ i ∈ getUnprocessedItems db, ∀ r, env.model ⟨i.type, i.data⟩ = some r →
        getResearch (processNewItems env ⟨db, false⟩).state.db i.type i.id = some r) := by
  cases hemp : (getUnprocessedItems db).isEmpty with
  | true =>
      have hnil : getUnprocessedItems db = [] := List.isEmpty_iff.mp hemp
      rw [hnil]
      exact ⟨by simp, by simp⟩
  | false =>
      have hstate : (processNewItems env ⟨db, false⟩).state.db
          = (processLoop env (getUnprocessedItems db) db).db := by
        rw [processNewItems_run env db hemp]
      obtain ⟨m1, m2, _, _⟩ := processLoop_spec env (getUnprocessedItems db) db
        (getUnprocessedItems_sourceId db) (getUnprocessedItems_keys db hWF) hcache
      rw [hstate]
      exact ⟨m1, m2⟩

/-- Witness for C2: the three-item poison scenario — model fails on `e2`
only; all three end up processed, `e1`/`e3` cached. -/
theorem processNewItems_poisonPill_witness :
    (∀ i ∈ getUnprocessedItems dbThree,
        itemProcessed (processNewItems envPoison ⟨dbThree, false⟩).state.db i.type i.id
          = true)
    ∧ (∀ i ∈ getUnprocessedItems dbThree, ∀ r, envPoison.model ⟨i.type, i.data⟩ = some r →
        getResearch (processNewItems envPoison ⟨dbThree, false⟩).state.db i.type i.id
          = some r) :=
  processNewItems_poisonPill envPoison dbThree (by decide) (by decide)

/-! ## Claim C9 -/

/-- C9: the value returned by `processNewItems` counts only the items
whose research agent call completed without throwing (on the
invariant-satisfying states, exactly the items whose model call returns a
result), and the `onItemProcessed` callback fires exactly once per such
item, in snapshot order, never for a failed item. -/
theorem processNewItems_returnCount (env : ResearchEnv) (db : DB)
    (hWF : db.WF) (hcache : NoCachedPending db) :
    (processNewItems env ⟨db, false⟩).returned
        = ((getUnprocessedItems db).filter
            (fun i => (env.model ⟨i.type, i.data⟩).isSome)).length
    ∧ (processNewItems env ⟨db, false⟩).callbacks
        = ((getUnprocessedItems db).filter
            (fun i => (env.model ⟨i.type, i.data⟩).isSome)).map itemKey := by
  cases hemp : (getUnprocessedItems db).isEmpty with
  | true =>
      have hnil : getUnprocessedItems db = [] := List.isEmpty_iff.mp hemp
      constructor
      · rw [hnil]
        simp [processNewItems, hnil]
      · rw [hnil]
        simp [processNewItems, hnil]
  | false =>
      obtain ⟨_, _, m3, m4⟩ := processLoop_spec env (getUnprocessedItems db) db
        (getUnprocessedItems_sourceId db) (getUnprocessedItems_keys db hWF) hcache
      rw [processNewItems_run env db hemp]
      exact ⟨m4, m3⟩

/-- Witness for C9: in the poison scenario the run returns 2 and fires the
callbacks for `e1` then `e3`, never for the failing `e2`. -/
theorem processNewItems_returnCount_witness :
    (processNewItems envPoison ⟨dbThree, false⟩).returned = 2
    ∧ (processNewItems envPoison ⟨dbThree, false⟩).callbacks
        = [(SourceType.email, "e1"), (SourceType.email, "e3")] := by
  have h := processNewItems_returnCount envPoison dbThree (by decide) (by decide)
  refine ⟨?_, ?_⟩
  · rw [h.1]
    decide
  · rw [h.2]
    decide

/-! ## Upsert lemmas (emails) -/

theorem foldl_upsertEmail_count (ids : List String) :
    ∀ (batch : List EmailMessage) (n : Nat) (rows : List EmailRow),
    (batch.foldl (fun acc m =>
        ((if ids.contains m.id then acc.1 else acc.1 + 1), upsertEmailRow acc.2 m))
      (n, rows)).1
      = n + (batch.filter (fun m => !(ids.contains m.id))).length := by
  intro batch
  induction batch with
  | nil => intro n rows; simp
  | cons m rest ih =>
      intro n rows
      rw [List.foldl_cons]
      by_cases h : ids.contains m.id = true
      · rw [if_pos h, ih, List.filter_cons_of_neg (by simpa using h)]
      · rw [if_neg h, ih, List.filter_cons_of_pos (by simpa using h), List.length_cons]
        omega

theorem upsertEmails_count (batch : List EmailMessage) (db : DB) :
    (upsertEmails batch db).1
      = (batch.filter (fun m =>
          !((db.emails.map (fun r => r.msg.id)).contains m.id))).length := by
  simp only [upsertEmails]
  rw [foldl_upsertEmail_count, Nat.zero_add]

theorem upsertEmailRow_fresh (rows : List EmailRow) (m : EmailMessage)
    (h : m.id ∉ rows.map (fun r => r.msg.id)) :
    upsertEmailRow rows m = rows ++ [⟨m, false⟩] := by
  unfold upsertEmailRow
  have hc : ¬ rows.any (fun r => decide (r.msg.id = m.id)) = true := by
    intro hany
    obtain ⟨r, hr, hP⟩ := List.any_eq_true.mp hany
    rw [decide_eq_true_eq] at hP
    exact h (List.mem_map.mpr ⟨r, hr, hP⟩)
  rw [if_neg hc]

theorem upsertEmailRow_keep (rows : List EmailRow) (m : EmailMessage)
    (hex : m.id ∈ rows.map (fun r => r.msg.id))
    (hsame : ∀ r ∈ rows, r.msg.id = m.id → r.msg = m) :
    upsertEmailRow rows m = rows := by
  unfold upsertEmailRow
  have hc : rows.any (fun r => decide (r.msg.id = m.id)) = true := by
    obtain ⟨r, hr, hid⟩ := List.mem_map.mp hex
    exact List.any_eq_true.mpr ⟨r, hr, by rw [decide_eq_true_eq]; exact hid⟩
  rw [if_pos hc]
  have hrow : ∀ r ∈ rows,
      (if r.msg.id = m.id then ({ msg := m, processed := r.processed } : EmailRow)
        else r) = r := by
    intro r hr
    by_cases hid : r.msg.id = m.id
    · rw [if_pos hid, ← hsame r hr hid]
    · rw [if_neg hid]
  rw [List.map_congr_left hrow]
  exact List.map_id'' (fun _ => rfl) rows

theorem foldl_upsertEmail_fresh (ids : List String) :
    ∀ (batch : List EmailMessage) (n : Nat) (rows : List EmailRow),
    (∀ m ∈ batch, m.id ∉ rows.map (fun r => r.msg.id)) →
    (batch.map (fun m => m.id)).Nodup →
    (batch.foldl (fun acc m =>
        ((if ids.contains m.id then acc.1 else acc.1 + 1), upsertEmailRow acc.2 m))
      (n, rows)).2
      = rows ++ batch.map (fun m => (⟨m, false⟩ : EmailRow)) := by
  intro batch
  induction batch with
  | nil => intro n rows _ _; simp
  | cons m rest ih =>
      intro n rows hfresh hnodup
      rw [List.foldl_cons, upsertEmailRow_fresh rows m (hfresh m (by simp))]
      rw [List.map_cons] at hnodup
      have hmid : m.id ∉ rest.map (fun m => m.id) := (List.nodup_cons.mp hnodup).1
      have hfresh' : ∀ m' ∈ rest,
          m'.id ∉ (rows ++ [(⟨m, false⟩ : EmailRow)]).map (fun r => r.msg.id) := by
        intro m' hm' hmem
        rw [List.map_append, List.mem_append] at hmem
        rcases hmem with hmem | hmem
        · exact hfresh m' (by simp [hm']) hmem
        · simp only [List.map_cons, List.map_nil, List.mem_singleton] at hmem
          exact hmid (List.mem_map.mpr ⟨m', hm', hmem⟩)
      rw [ih (if ids.contains m.id = true then (n, rows).1 else (n, rows).1 + 1)
        (rows ++ [(⟨m, false⟩ : EmailRow)]) hfresh' (List.nodup_cons.mp hnodup).2]
      rw [List.map_cons, List.append_assoc, List.singleton_append]

theorem foldl_upsertEmail_keep (ids : List String) :
    ∀ (batch : List EmailMessage) (n : Nat) (rows : List EmailRow),
    (∀ m ∈ batch, m.id ∈ rows.map (fun r => r.msg.id)) →
    (∀ m ∈ batch, ∀ r ∈ rows, r.msg.id = m.id → r.msg = m) →
    (batch.foldl (fun acc m =>
        ((if ids.contains m.id then acc.1 else acc.1 + 1), upsertEmailRow acc.2 m))
      (n, rows)).2 = rows := by
  intro batch
  induction batch with
  | nil => intro n rows _ _; rfl
  | cons m rest ih =>
      intro n rows hex hsame
      rw [List.foldl_cons,
        upsertEmailRow_keep rows m (hex m (by simp)) (hsame m (by simp))]
      exact ih _ rows (fun m' h => hex m' (by simp [h])) (fun m' h => hsame m' (by simp [h]))

/-! ## Upsert lemmas (events) -/

theorem foldl_upsertEvent_count (ids : List String) :
    ∀ (batch : List CalendarEvent) (n : Nat) (rows : List EventRow),
    (batch.foldl (fun acc e =>
        ((if ids.contains e.id then acc.1 else acc.1 + 1), upsertEventRow acc.2 e))
      (n, rows)).1
      = n + (batch.filter (fun e => !(ids.contains e.id))).length := by
  intro batch
  induction batch with
  | nil => intro n rows; simp
  | cons e rest ih =>
      intro n rows
      rw [List.foldl_cons]
      by_cases h : ids.contains e.id = true
      · rw [if_pos h, ih, List.filter_cons_of_neg (by simpa using h)]
      · rw [if_neg h, ih, List.filter_cons_of_pos (by simpa using h), List.length_cons]
        omega

theorem upsertEvents_count (batch : List CalendarEvent) (db : DB) :
    (upsertEvents batch db).1
      = (batch.filter (fun e =>
          !((db.events.map (fun r => r.ev.id)).contains e.id))).length := by
  simp only [upsertEvents]
  rw [foldl_upsertEvent_count, Nat.zero_add]

theorem upsertEventRow_fresh (rows : List EventRow) (e : CalendarEvent)
    (h : e.id ∉ rows.map (fun r => r.ev.id)) :
    upsertEventRow rows e = rows ++ [⟨e, false⟩] := by
  unfold upsertEventRow
  have hc : ¬ rows.any (fun r => decide (r.ev.id = e.id)) = true := by
    intro hany
    obtain ⟨r, hr, hP⟩ := List.any_eq_true.mp hany
    rw [decide_eq_true_eq] at hP
    exact h (List.mem_map.mpr ⟨r, hr, hP⟩)
  rw [if_neg hc]

theorem upsertEventRow_keep (rows : List EventRow) (e : CalendarEvent)
    (hex : e.id ∈ rows.map (fun r => r.ev.id))
    (hsame : ∀ r ∈ rows, r.ev.id = e.id → r.ev = e) :
    upsertEventRow rows e = rows := by
  unfold upsertEventRow
  have hc : rows.any (fun r => decide (r.ev.id = e.id)) = true := by
    obtain ⟨r, hr, hid⟩ := List.mem_map.mp hex
    exact List.any_eq_true.mpr ⟨r, hr, by rw [decide_eq_true_eq]; exact hid⟩
  rw [if_pos hc]
  have hrow : ∀ r ∈ rows,
      (if r.ev.id = e.id then ({ ev := e, processed := r.processed } : EventRow)
        else r) = r := by
    intro r hr
    by_cases hid : r.ev.id = e.id
    · rw [if_pos hid, ← hsame r hr hid]
    · rw [if_neg hid]
  rw [List.map_congr_left hrow]
  exact List.map_id'' (fun _ => rfl) rows

theorem foldl_upsertEvent_fresh (ids : List String) :
    ∀ (batch : List CalendarEvent) (n : Nat) (rows : List EventRow),
    (∀ e ∈ batch, e.id ∉ rows.map (fun r => r.ev.id)) →
    (batch.map (fun e => e.id)).Nodup →
    (batch.foldl (fun acc e =>
        ((if ids.contains e.id then acc.1 else acc.1 + 1), upsertEventRow acc.2 e))
      (n, rows)).2
      = rows ++ batch.map (fun e => (⟨e, false⟩ : EventRow)) := by
  intro batch
  induction batch with
  | nil => intro n rows _ _; simp
  | cons e rest ih =>
      intro n rows hfresh hnodup
      rw [List.foldl_cons, upsertEventRow_fresh rows e (hfresh e (by simp))]
      rw [List.map_cons] at hnodup
      have hmid : e.id ∉ rest.map (fun e => e.id) := (List.nodup_cons.mp hnodup).1
      have hfresh' : ∀ e' ∈ rest,
          e'.id ∉ (rows ++ [(⟨e, false⟩ : EventRow)]).map (fun r => r.ev.id) := by
        intro e' he' hmem
        rw [List.map_append, List.mem_append] at hmem
        rcases hmem with hmem | hmem
        · exact hfresh e' (by simp [he']) hmem
        · simp only [List.map_cons, List.map_nil, List.mem_singleton] at hmem
          exact hmid (List.mem_map.mpr ⟨e', he', hmem⟩)
      rw [ih (if ids.contains e.id = true then (n, rows).1 else (n, rows).1 + 1)
        (rows ++ [(⟨e, false⟩ : EventRow)]) hfresh' (List.nodup_cons.mp hnodup).2]
      rw [List.map_cons, List.append_assoc, List.singleton_append]

theorem foldl_upsertEvent_keep (ids : List String) :
    ∀ (batch : List CalendarEvent) (n : Nat) (rows : List EventRow),
    (∀ e ∈ batch, e.id ∈ rows.map (fun r => r.ev.id)) →
    (∀ e ∈ batch, ∀ r ∈ rows, r.ev.id = e.id → r.ev = e) →
    (batch.foldl (fun acc e =>
        ((if ids.contains e.id then acc.1 else acc.1 + 1), upsertEventRow acc.2 e))
      (n, rows)).2 = rows := by
  intro batch
  induction batch with
  | nil => intro n rows _ _; rfl
  | cons e rest ih =>
      intro n rows hex hsame
      rw [List.foldl_cons,
        upsertEventRow_keep rows e (hex e (by simp)) (hsame e (by simp))]
      exact ih _ rows (fun e' h => hex e' (by simp [h])) (fun e' h => hsame e' (by simp [h]))

/-- The dedup-idempotence scenario for the email table: a batch of
pairwise-distinct, previously-unknown ids counts fully on the first call,
appends fresh unprocessed rows, and the identical second call counts zero
and leaves the database bit-identical. -/
theorem upsertEmails_fresh_spec (batch : List EmailMessage) (db : DB)
    (hnodup : (batch.map (fun m => m.id)).Nodup)
    (hfresh : ∀ m ∈ batch, m.id ∉ db.emails.map (fun r => r.msg.id)) :
    (upsertEmails batch db).1 = batch.length
    ∧ ((upsertEmails batch db).2).emails
        = db.emails ++ batch.map (fun m => (⟨m, false⟩ : EmailRow))
    ∧ (upsertEmails batch (upsertEmails batch db).2).1 = 0
    ∧ (upsertEmails batch (upsertEmails batch db).2).2 = (upsertEmails batch db).2 := by
  have h2 : ((upsertEmails batch db).2).emails
      = db.emails ++ batch.map (fun m => (⟨m, false⟩ : EmailRow)) := by
    have hfold := foldl_upsertEmail_fresh (db.emails.map (fun (r : EmailRow) => r.msg.id))
      batch 0 db.emails hfresh hnodup
    exact hfold
  have hexist : ∀ m ∈ batch,
      m.id ∈ ((upsertEmails batch db).2).emails.map (fun r => r.msg.id) := by
    intro m hm
    rw [h2, List.map_append, List.mem_append]
    right
    rw [List.map_map, List.mem_map]
    exact ⟨m, hm, rfl⟩
  have hsame : ∀ m ∈ batch, ∀ r ∈ ((upsertEmails batch db).2).emails,
      r.msg.id = m.id → r.msg = m := by
    intro m hm r hr hid
    rw [h2, List.mem_append] at hr
    rcases hr with hr | hr
    · exact absurd (List.mem_map.mpr ⟨r, hr, hid⟩) (hfresh m hm)
    · rw [List.mem_map] at hr
      obtain ⟨m', hm', rfl⟩ := hr
      exact List.inj_on_of_nodup_map hnodup hm' hm hid
  refine ⟨?_, h2, ?_, ?_⟩
  · rw [upsertEmails_count]
    have hall : batch.filter (fun m =>
        !((db.emails.map (fun r => r.msg.id)).contains m.id)) = batch := by
      rw [List.filter_eq_self]
      intro m hm
      simpa using hfresh m hm
    rw [hall]
  · rw [upsertEmails_count, List.length_eq_zero, List.filter_eq_nil_iff]
    intro m hm
    simpa using hexist m hm
  · have hkeep := foldl_upsertEmail_keep
      (((upsertEmails batch db).2).emails.map (fun r => r.msg.id)) batch 0
      ((upsertEmails batch db).2).emails hexist hsame
    have hstep : (upsertEmails batch (upsertEmails batch db).2).2
        = { (upsertEmails batch db).2 with
            emails := (batch.foldl (fun acc m =>
              ((if (((upsertEmails batch db).2).emails.map
                    (fun r => r.msg.id)).contains m.id
                  then acc.1 else acc.1 + 1), upsertEmailRow acc.2 m))
              (0, ((upsertEmails batch db).2).emails)).2 } := rfl
    rw [hstep, hkeep]

/-- The dedup-idempotence scenario for the events table. -/
theorem upsertEvents_fresh_spec (batch : List CalendarEvent) (db : DB)
    (hnodup : (batch.map (fun e => e.id)).Nodup)
    (hfresh : ∀ e ∈ batch, e.id ∉ db.events.map (fun r => r.ev.id)) :
    (upsertEvents batch db).1 = batch.length
    ∧ ((upsertEvents batch db).2).events
        = db.events ++ batch.map (fun e => (⟨e, false⟩ : EventRow))
    ∧ (upsertEvents batch (upsertEvents batch db).2).1 = 0
    ∧ (upsertEvents batch (upsertEvents batch db).2).2 = (upsertEvents batch db).2 := by
  have h2 : ((upsertEvents batch db).2).events
      = db.events ++ batch.map (fun e => (⟨e, false⟩ : EventRow)) := by
    have hfold := foldl_upsertEvent_fresh (db.events.map (fun (r : EventRow) => r.ev.id))
      batch 0 db.events hfresh hnodup
    exact hfold
  have hexist : ∀ e ∈ batch,
      e.id ∈ ((upsertEvents batch db).2).events.map (fun r => r.ev.id) := by
    intro e he
    rw [h2, List.map_append, List.mem_append]
    right
    rw [List.map_map, List.mem_map]
    exact ⟨e, he, rfl⟩
  have hsame : ∀ e ∈ batch, ∀ r ∈ ((upsertEvents batch db).2).events,
      r.ev.id = e.id → r.ev = e := by
    intro e he r hr hid
    rw [h2, List.mem_append] at hr
    rcases hr with hr | hr
    · exact absurd (List.mem_map.mpr ⟨r, hr, hid⟩) (hfresh e he)
    · rw [List.mem_map] at hr
      obtain ⟨e', he', rfl⟩ := hr
      exact List.inj_on_of_nodup_map hnodup he' he hid
  refine ⟨?_, h2, ?_, ?_⟩
  · rw [upsertEvents_count]
    have hall : batch.filter (fun e =>
        !((db.events.map (fun r => r.ev.id)).contains e.id)) = batch := by
      rw [List.filter_eq_self]
      intro e he
      simpa using hfresh e he
    rw [hall]
  · rw [upsertEvents_count, List.length_eq_zero, List.filter_eq_nil_iff]
    intro e he
    simpa using hexist e he
  · have hkeep := foldl_upsertEvent_keep
      (((upsertEvents batch db).2).events.map (fun r => r.ev.id)) batch 0
      ((upsertEvents batch db).2).events hexist hsame
    have hstep : (upsertEvents batch (upsertEvents batch db).2).2
        = { (upsertEvents batch db).2 with
            events := (batch.foldl (fun acc e =>
              ((if (((upsertEvents batch db).2).events.map
                    (fun r => r.ev.id)).contains e.id
                  then acc.1 else acc.1 + 1), upsertEventRow acc.2 e))
              (0, ((upsertEvents batch db).2).events)).2 } := rfl
    rw [hstep, hkeep]

/-! ## Claim C3 -/

/-- C3: dedup idempotence of the upsert. Both upserts return the number of
batch entries whose id was absent from the pre-batch existing-id snapshot;
and for a batch of distinct fresh items, the first call returns `N` and
appends the rows unprocessed, while an identical second call returns `0`
and leaves the stored rows — contents, ids and processed flags —
bit-identical. -/
theorem upsert_dedup_idempotent :
    (∀ (batch : List EmailMessage) (db : DB),
        (upsertEmails batch db).1 = (batch.filter (fun m =>
          !((db.emails.map (fun r => r.msg.id)).contains m.id))).length)
    ∧ (∀ (batch : List CalendarEvent) (db : DB),
        (upsertEvents batch db).1 = (batch.filter (fun e =>
          !((db.events.map (fun r => r.ev.id)).contains e.id))).length)
    ∧ (∀ (batch : List EmailMessage) (db : DB),
        (batch.map (fun m => m.id)).Nodup →
        (∀ m ∈ batch, m.id ∉ db.emails.map (fun r => r.msg.id)) →
        (upsertEmails batch db).1 = batch.length
        ∧ ((upsertEmails batch db).2).emails
            = db.emails ++ batch.map (fun m => (⟨m, false⟩ : EmailRow))
        ∧ (upsertEmails batch (upsertEmails batch db).2).1 = 0
        ∧ (upsertEmails batch (upsertEmails batch db).2).2 = (upsertEmails batch db).2)
    ∧ (∀ (batch : List CalendarEvent) (db : DB),
        (batch.map (fun e => e.id)).Nodup →
        (∀ e ∈ batch, e.id ∉ db.events.map (fun r => r.ev.id)) →
        (upsertEvents batch db).1 = batch.length
        ∧ ((upsertEvents batch db).2).events
            = db.events ++ batch.map (fun e => (⟨e, false⟩ : EventRow))
        ∧ (upsertEvents batch (upsertEvents batch db).2).1 = 0
        ∧ (upsertEvents batch (upsertEvents batch db).2).2 = (upsertEvents batch db).2) :=
  ⟨upsertEmails_count, upsertEvents_count,
    fun batch db hnodup hfresh => upsertEmails_fresh_spec batch db hnodup hfresh,
    fun batch db hnodup hfresh => upsertEvents_fresh_spec batch db hnodup hfresh⟩

/-- Witness for C3: two fresh distinct emails — first call counts 2, the
second counts 0 and changes nothing. -/
theorem upsert_dedup_idempotent_witness :
    (upsertEmails [mkEmail "a" "s1", mkEmail "b" "s2"] DB.empty).1 = 2
    ∧ (upsertEmails [mkEmail "a" "s1", mkEmail "b" "s2"]
        (upsertEmails [mkEmail "a" "s1", mkEmail "b" "s2"] DB.empty).2).1 = 0
    ∧ (upsertEmails [mkEmail "a" "s1", mkEmail "b" "s2"]
          (upsertEmails [mkEmail "a" "s1", mkEmail "b" "s2"] DB.empty).2).2
        = (upsertEmails [mkEmail "a" "s1", mkEmail "b" "s2"] DB.empty).2 :=
  have h := upsert_dedup_idempotent.2.2.1 [mkEmail "a" "s1", mkEmail "b" "s2"]
    DB.empty (by decide) (by decide)
  ⟨h.1, h.2.2.1, h.2.2.2⟩

/-! ## Claim C10 -/

/-- C10: a batch containing the same previously-unknown id twice counts
both occurrences toward `newCount` (the pre-batch id snapshot is never
updated mid-batch) — in general the count is over batch entries, not
distinct ids — so `newCount` can exceed the rows actually added, and the
stored row carries the fields of the last occurrence. -/
theorem upsertCount_duplicates :
    (∀ (batch : List EmailMessage) (db : DB),
        (upsertEmails batch db).1 = (batch.filter (fun m =>
          !((db.emails.map (fun r => r.msg.id)).contains m.id))).length)
    ∧ (∀ (batch : List CalendarEvent) (db : DB),
        (upsertEvents batch db).1 = (batch.filter (fun e =>
          !((db.events.map (fun r => r.ev.id)).contains e.id))).length)
    ∧ (upsertEmails [mkEmail "b" "x", mkEmail "b" "y"] DB.empty).1 = 2
    ∧ ((upsertEmails [mkEmail "b" "x", mkEmail "b" "y"] DB.empty).2).emails
        = [⟨mkEmail "b" "y", false⟩] :=
  ⟨upsertEmails_count, upsertEvents_count, by decide, by decide⟩

/-! ## Claim C6 -/

/-- Counterexample to C6 as stated: in `dbInsights`, action index 1 is an
email step whose three fields are all present (`to = some ""`), so the
claim requires delegation to the provider and a log status matching the
provider outcome (the stub provider succeeds). The code instead treats the
empty string as missing (JS falsiness), returns `failed`, and never
invokes the provider. -/
theorem emailGate_counterexample :
    actionEmailEmptyTo.toAddr = some ""
    ∧ actionEmailEmptyTo.subject = some "Re: hello"
    ∧ actionEmailEmptyTo.body = some "Hi Alice"
    ∧ (envExecOk.send "" "Re: hello" "Hi Alice").success = true
    ∧ (executeAction envExecOk .emailReply "r1" 1 dbInsights).toOption.map
        (fun res => (res.execution.status, res.sendLog))
      = some (ExecStatus.failed, [])
    ∧ (executeAction envExecOk .emailReply "r1" 1 dbInsights).toOption.map
        (fun res => res.db.actionLog)
      = some [⟨.emailReply, "r1", 1, "failed"⟩] := by
  decide

/-- C6 amended: for an email-type action step, if any of `to`, `subject`,
`body` is absent **or empty** (JS-falsy), `executeAction` returns a
`failed` outcome with the descriptive error, appends a `failed` log entry,
and never invokes the email provider; when all three are present and
non-empty it invokes the provider exactly once and appends exactly one log
entry whose status matches the provider outcome. -/
theorem emailGate_complete (env : ExecEnv) (st : InsightsSourceType) (sid : String)
    (idx : Nat) (db : DB) (ins : InsightsResult) (action : ActionStep)
    (hins : getInsights db st sid = some ins)
    (hidx : ins.actionSteps[idx]? = some action)
    (htype : action.type = .email) :
    ((isBlank action.toAddr || isBlank action.subject || isBlank action.body) = true →
      ∃ res, executeAction env st sid idx db = .ok res
        ∧ res.execution.status = .failed
        ∧ res.execution.error
            = some "Missing email fields (to, subject, or body). Cannot send."
        ∧ res.sendLog = []
        ∧ res.db.actionLog = db.actionLog ++ [⟨st, sid, idx, "failed"⟩])
    ∧ ((isBlank action.toAddr || isBlank action.subject || isBlank action.body) = false →
      ∀ t s b, action.toAddr = some t → action.subject = some s → action.body = some b →
      ∃ res, executeAction env st sid idx db = .ok res
        ∧ res.sendLog = [(t, s, b)]
        ∧ res.execution.status
            = (if (env.send t s b).success then ExecStatus.executed else ExecStatus.failed)
        ∧ res.db.actionLog = db.actionLog
            ++ [⟨st, sid, idx,
                if (env.send t s b).success then "executed" else "failed"⟩]) := by
  have hexec : executeAction env st sid idx db
      = .ok (executeEmailAction env st sid idx action db) := by
    simp only [executeAction, hins, hidx, htype, eq_self_iff_true, if_true]
  constructor
  · intro hblank
    have hE : executeEmailAction env st sid idx action db
        = { execution := ⟨idx, action, .failed, none, none, none,
              some "Missing email fields (to, subject, or body). Cannot send."⟩,
            db := logActionExecution db st sid idx "failed",
            sendLog := [], createLog := [] } := by
      unfold executeEmailAction
      rw [if_pos hblank]
    refine ⟨_, hexec, by rw [hE], by rw [hE], by rw [hE], ?_⟩
    rw [hE]
    rfl
  · intro hblank t s b ht hs hb
    have hcond : ¬((isBlank action.toAddr || isBlank action.subject
        || isBlank action.body) = true) := by
      rw [hblank]
      simp
    refine ⟨executeEmailAction env st sid idx action db, hexec, ?_, ?_, ?_⟩ <;>
      · unfold executeEmailAction
        rw [if_neg hcond, ht, hs, hb]
        simp only [Option.getD_some]
        split <;> rfl

/-- Witness for the amended C6: action index 2 (`body` absent) fails with
the descriptive error, logs `failed`, and never touches the provider. -/
theorem emailGate_complete_witness :
    ∃ res, executeAction envExecOk .emailReply "r1" 2 dbInsights = .ok res
      ∧ res.execution.status = .failed
      ∧ res.execution.error
          = some "Missing email fields (to, subject, or body). Cannot send."
      ∧ res.sendLog = []
      ∧ res.db.actionLog = dbInsights.actionLog ++ [⟨.emailReply, "r1", 2, "failed"⟩] :=
  (emailGate_complete envExecOk .emailReply "r1" 2 dbInsights insightsFix actionEmailNoBody
    (by decide) (by decide) (by decide)).1 (by decide)

/-! ## Weekday arithmetic -/

theorem isWeekendDay_iff (d : Nat) :
    isWeekendDay d = true ↔ ((d + 4) % 7 = 0 ∨ (d + 4) % 7 = 6) := by
  simp [isWeekendDay, dayOfWeek]

theorem not_three_weekend (x : Nat) :
    ¬(isWeekendDay x = true ∧ isWeekendDay (x + 1) = true
      ∧ isWeekendDay (x + 2) = true) := by
  simp only [isWeekendDay_iff]
  omega

/-- General behavior of `getNextBusinessDayStart`: the first day strictly
after `now` that is not a weekend day, at 10:00:00.000. -/
theorem getNextBusinessDayStart_spec (now : LocalTime) :
    now.day < (getNextBusinessDayStart now).day
    ∧ isWeekendDay (getNextBusinessDayStart now).day = false
    ∧ (∀ d, now.day < d → d < (getNextBusinessDayStart now).day →
        isWeekendDay d = true)
    ∧ (getNextBusinessDayStart now).msOfDay = 36000000 := by
  by_cases h1 : isWeekendDay (now.day + 1) = true
  · by_cases h2 : isWeekendDay (now.day + 1 + 1) = true
    · have h3 : isWeekendDay (now.day + 1 + 2) = false := by
        cases hc : isWeekendDay (now.day + 1 + 2) with
        | false => rfl
        | true => exact absurd ⟨h1, h2, hc⟩ (not_three_weekend (now.day + 1))
      have hsw : skipWeekend 7 (now.day + 1) = now.day + 1 + 2 := by
        have h3' : isWeekendDay (now.day + 1 + 1 + 1) = false := by
          have : now.day + 1 + 1 + 1 = now.day + 1 + 2 := by omega
          rw [this]
          exact h3
        simp [skipWeekend, h1, h2, h3']
      refine ⟨?_, ?_, ?_, rfl⟩
      · show now.day < skipWeekend 7 (now.day + 1)
        rw [hsw]
        omega
      · show isWeekendDay (skipWeekend 7 (now.day + 1)) = false
        rw [hsw]
        exact h3
      · intro d hd1 hd2
        replace hd2 : d < skipWeekend 7 (now.day + 1) := hd2
        rw [hsw] at hd2
        have hd : d = now.day + 1 ∨ d = now.day + 1 + 1 := by omega
        rcases hd with rfl | rfl
        · exact h1
        · exact h2
    · rw [Bool.not_eq_true] at h2
      have hsw : skipWeekend 7 (now.day + 1) = now.day + 1 + 1 := by
        simp [skipWeekend, h1, h2]
      refine ⟨?_, ?_, ?_, rfl⟩
      · show now.day < skipWeekend 7 (now.day + 1)
        rw [hsw]
        omega
      · show isWeekendDay (skipWeekend 7 (now.day + 1)) = false
        rw [hsw]
        exact h2
      · intro d hd1 hd2
        replace hd2 : d < skipWeekend 7 (now.day + 1) := hd2
        rw [hsw] at hd2
        have hd : d = now.day + 1 := by omega
        rw [hd]
        exact h1
  · rw [Bool.not_eq_true] at h1
    have hsw : skipWeekend 7 (now.day + 1) = now.day + 1 := by
      simp [skipWeekend, h1]
    refine ⟨?_, ?_, ?_, rfl⟩
    · show now.day < skipWeekend 7 (now.day + 1)
      rw [hsw]
      omega
    · show isWeekendDay (skipWeekend 7 (now.day + 1)) = false
      rw [hsw]
      exact h1
    · intro d hd1 hd2
      replace hd2 : d < skipWeekend 7 (now.day + 1) := hd2
      rw [hsw] at hd2
      omega

/-- A Friday `now` rolls to the following Monday. -/
theorem getNextBusinessDayStart_friday (now : LocalTime) (h : dayOfWeek now.day = 5) :
    (getNextBusinessDayStart now).day = now.day + 3
    ∧ dayOfWeek (getNextBusinessDayStart now).day = 1 := by
  simp only [dayOfWeek] at h
  have h1 : isWeekendDay (now.day + 1) = true := by
    rw [isWeekendDay_iff]
    omega
  have h2 : isWeekendDay (now.day + 1 + 1) = true := by
    rw [isWeekendDay_iff]
    omega
  have h3 : isWeekendDay (now.day + 1 + 1 + 1) = false := by
    cases hc : isWeekendDay (now.day + 1 + 1 + 1) with
    | false => rfl
    | true =>
        rw [isWeekendDay_iff] at hc
        omega
  have hsw : skipWeekend 7 (now.day + 1) = now.day + 1 + 1 + 1 := by
    simp [skipWeekend, h1, h2, h3]
  constructor
  · show skipWeekend 7 (now.day + 1) = now.day + 3
    rw [hsw]
  · show dayOfWeek (skipWeekend 7 (now.day + 1)) = 1
    rw [hsw]
    simp only [dayOfWeek]
    omega

/-! ## Claim C7 -/

/-- Counterexample to C7 as stated: action index 3 carries
`durationMinutes = some 0` (present, not absent), so the claim requires
`end = start + 0`; the code's `durationMinutes || 30` treats 0 as falsy
and produces `end = start + 30 minutes`. -/
theorem meetingDefaultTime_counterexample :
    actionMeetingZeroDur.durationMinutes = some 0
    ∧ (executeAction envExecOk .emailReply "r1" 3 dbInsights).toOption.map
        (fun res => res.createLog.map (fun q => q.endMs - q.startMs))
      = some [1800000]
    ∧ (1800000 : Int) ≠ 0 * 60 * 1000 := by
  decide

/-- C7 amended: for a meeting-type action, the computed start is the first
day strictly after `now` that is a weekday, at 10:00:00.000 local
(Friday rolls to Monday), and the provider is invoked exactly once with
`end = start + durationMinutes` minutes where `durationMinutes` defaults
to 30 when absent **or zero** (JS falsiness of `|| 30`). -/
theorem meetingDefaultTime (env : ExecEnv) (st : InsightsSourceType) (sid : String)
    (idx : Nat) (db : DB) (ins : InsightsResult) (action : ActionStep)
    (hins : getInsights db st sid = some ins)
    (hidx : ins.actionSteps[idx]? = some action)
    (htype : action.type = .meeting) :
    (env.now.day < (getNextBusinessDayStart env.now).day
      ∧ isWeekendDay (getNextBusinessDayStart env.now).day = false
      ∧ (∀ d, env.now.day < d → d < (getNextBusinessDayStart env.now).day →
          isWeekendDay d = true)
      ∧ (getNextBusinessDayStart env.now).msOfDay = 36000000)
    ∧ (dayOfWeek env.now.day = 5 →
        (getNextBusinessDayStart env.now).day = env.now.day + 3
        ∧ dayOfWeek (getNextBusinessDayStart env.now).day = 1)
    ∧ (∃ res, executeAction env st sid idx db = .ok res
        ∧ res.createLog.map (fun q => q.startMs)
            = [(getNextBusinessDayStart env.now).toMs]
        ∧ ((action.durationMinutes = none ∨ action.durationMinutes = some 0) →
            res.createLog.map (fun q => q.endMs)
              = [(getNextBusinessDayStart env.now).toMs + 30 * 60 * 1000])
        ∧ (∀ k, action.durationMinutes = some k → ¬(k = 0) →
            res.createLog.map (fun q => q.endMs)
              = [(getNextBusinessDayStart env.now).toMs + k * 60 * 1000])) := by
  have htype' : ¬(action.type = ActionType.email) := by
    rw [htype]
    simp
  have hexec : executeAction env st sid idx db
      = .ok (executeMeetingAction env st sid idx action db) := by
    simp only [executeAction, hins, hidx]
    rw [if_neg htype']
  have hlog : (executeMeetingAction env st sid idx action db).createLog
      = [⟨(match action.meetingSummary with
            | some s => if s = "" then action.description else s
            | none => action.description),
          action.details,
          (getNextBusinessDayStart env.now).toMs,
          (getNextBusinessDayStart env.now).toMs +
            (match action.durationMinutes with
              | some d => if d = 0 then 30 else d
              | none => 30) * 60 * 1000,
          action.attendees.getD []⟩] := by
    simp only [executeMeetingAction, apply_ite ExecResult.createLog, ite_self]
  refine ⟨getNextBusinessDayStart_spec env.now,
    getNextBusinessDayStart_friday env.now,
    executeMeetingAction env st sid idx action db, hexec, ?_, ?_, ?_⟩
  · rw [hlog]
    rfl
  · intro hd
    rw [hlog]
    rcases hd with hd | hd <;> rw [hd] <;> simp
  · intro k hk hk0
    rw [hlog, hk]
    simp [hk0]

/-- Witness for the amended C7: Friday 15:00 yields Monday (day 4) 10:00,
and a 45-minute action's provider request starts there. -/
theorem meetingDefaultTime_witness :
    ((getNextBusinessDayStart envExecFriday.now).day = envExecFriday.now.day + 3
      ∧ dayOfWeek (getNextBusinessDayStart envExecFriday.now).day = 1)
    ∧ (∃ res, executeAction envExecFriday .emailReply "r1" 5 dbInsights = .ok res
        ∧ res.createLog.map (fun q => q.startMs)
            = [(getNextBusinessDayStart envExecFriday.now).toMs]
        ∧ res.createLog.map (fun q => q.endMs)
            = [(getNextBusinessDayStart envExecFriday.now).toMs + 45 * 60 * 1000]) := by
  have h := meetingDefaultTime envExecFriday .emailReply "r1" 5 dbInsights insightsFix
    actionMeeting45 (by decide) (by decide) (by decide)
  refine ⟨h.2.1 (by decide), ?_⟩
  obtain ⟨res, h1, h2, _, h4⟩ := h.2.2
  exact ⟨res, h1, h2, h4 45 (by decide) (by decide)⟩

/-! ## Claim C8 -/

/-- C8: ingestion never hard-fails and returns the full collection. Both
ingestion functions are total (no error escapes); the returned list is
always the full stored collection read back from the final database; the
scheduler trigger fires iff the upsert reported new items; and whenever
the provider fetch throws, the call behaves exactly like an upsert of the
mock fixture batch (the error is swallowed). -/
theorem fetchAndUpsert_resilient :
    (∀ (env : IngestEnv) (db : DB),
        (fetchAndUpsertEmails env db).1 = getAllEmails (fetchAndUpsertEmails env db).2.1)
    ∧ (∀ (env : IngestEnv) (db : DB),
        (fetchAndUpsertEvents env db).1 = getAllEvents (fetchAndUpsertEvents env db).2.1)
    ∧ (∀ (env : IngestEnv) (db : DB),
        ((fetchAndUpsertEmails env db).2.2 = true
          ↔ 0 < (upsertEmails (selectEmailBatch env) db).1)
        ∧ ((fetchAndUpsertEvents env db).2.2 = true
          ↔ 0 < (upsertEvents (selectEventBatch env) db).1))
    ∧ (∀ (env : IngestEnv) (db : DB) (e : String),
        env.gmailResult = .error e →
        fetchAndUpsertEmails env db
          = (getAllEmails (upsertEmails env.mockEmails db).2,
              (upsertEmails env.mockEmails db).2,
              decide (0 < (upsertEmails env.mockEmails db).1)))
    ∧ (∀ (env : IngestEnv) (db : DB) (e : String),
        env.calendarResult = .error e →
        fetchAndUpsertEvents env db
          = (getAllEvents (upsertEvents env.mockEvents db).2,
              (upsertEvents env.mockEvents db).2,
              decide (0 < (upsertEvents env.mockEvents db).1))) := by
  refine ⟨fun env db => rfl, fun env db => rfl, ?_, ?_, ?_⟩
  · intro env db
    constructor <;> simp [fetchAndUpsertEmails, fetchAndUpsertEvents]
  · intro env db e he
    simp only [fetchAndUpsertEmails, selectEmailBatch, he]
    cases hauth : env.authStatus <;> simp
  · intro env db e he
    simp only [fetchAndUpsertEvents, selectEventBatch, he]
    cases hauth : env.authStatus <;> simp

/-- Witness for C8: an authenticated environment whose Gmail fetch throws
upserts the two mock emails instead and triggers the scheduler. -/
theorem fetchAndUpsert_resilient_witness :
    fetchAndUpsertEmails envIngestFail DB.empty
      = (getAllEmails (upsertEmails envIngestFail.mockEmails DB.empty).2,
          (upsertEmails envIngestFail.mockEmails DB.empty).2,
          decide (0 < (upsertEmails envIngestFail.mockEmails DB.empty).1))
    ∧ (fetchAndUpsertEmails envIngestFail DB.empty).2.2 = true :=
  ⟨fetchAndUpsert_resilient.2.2.2.1 envIngestFail DB.empty
      "Not authenticated with Google" rfl,
    by decide⟩

end Pipeline
